import Mathlib

/-!
Verification development for the promql-engine physical execution runtime.

Shallow embedding of:
- `signature`, `hashSeries`, `join`, `initOutputs` and `Next` of the binary
  vector operator (src/physicalplan/binary/vector.go);
- `numberLiteralSelector.Next` (src/unnamed/part_000, package scan).

Modelling conventions:
- Go `int64` timestamps and step widths become `Int`; Go integer division
  (truncation toward zero) becomes `Int.tdiv`.
- Sample values (`float64`) become `Float`; no claim computes on values, they
  only flow through, so no floating-point arithmetic is ever reasoned about.
- Go maps keyed by `uint64` signatures become association lists in insertion
  order (a deterministic refinement of Go map iteration; every property proved
  below is independent of bucket iteration order).
- Go slice indexing that can panic is modelled as a fallible operation
  returning `Option`/`Except`, with a distinct error per panic site.
- The Prometheus `labels` package is an external collaborator (spec section 6);
  its hash is an abstract function parameter `h : Labels → Nat`, with
  `HashWithoutLabels`/`HashForLabels`/builder operations modelled by filters
  over the label list per the documented interface.
-/

set_option autoImplicit false

namespace PromEngine

/-- The reserved metric-name label, always dropped by binary operators. -/
def MetricName : String := "__name__"

/-- One `(name, value)` pair of a Prometheus label set. -/
structure Label where
  name : String
  value : String
deriving DecidableEq, Repr

/-- A label set: `labels.Labels` as an ordered list of pairs. -/
abbrev Labels := List Label

/-- `promql.Point`: a timestamped sample value. -/
structure Point where
  T : Int
  V : Float

/-- `promql.Sample` as used by `numberLiteralSelector.Next` (only the embedded
point's `T` and `V` fields are read by the code under src/). -/
structure Sample where
  T : Int
  V : Float

/-- `model.StepVector`: one instant's samples across series. -/
structure StepVector where
  T : Int
  SampleIDs : List Nat
  Samples : List Float

/-- `model.Series`: a dense series id together with its label set. -/
structure Series where
  ID : Nat
  Metric : Labels
deriving DecidableEq, Repr

/-! ## Label operations (external `labels` package, spec section 6)

`labels.NewBuilder(m).Del(ns...)` / `.Keep(ns...)` accumulate a deletion set
that is applied when `.Labels()` is called; sequential application equals
composed filtering of the label list, which is how we model it. -/

/-- `Builder.Del`: drop the labels whose names are listed. -/
def builderDel (ls : Labels) (names : List String) : Labels :=
  ls.filter (fun l => decide (l.name ∉ names))

/-- `Builder.Keep`: keep only the labels whose names are listed. -/
def builderKeep (ls : Labels) (names : List String) : Labels :=
  ls.filter (fun l => decide (l.name ∈ names))

/-- `Labels.HashWithoutLabels(buf, names...)`: hash of all labels except the
named ones; the Prometheus implementation always additionally skips
`__name__`. The hash itself is the abstract parameter `h`. -/
def hashWithoutLabels (h : Labels → Nat) (metric : Labels) (names : List String) : Nat :=
  h (metric.filter (fun l => decide (l.name ≠ MetricName ∧ l.name ∉ names)))

/-- `Labels.HashForLabels(buf, names...)`: hash of the labels restricted to the
named ones. -/
def hashForLabels (h : Labels → Nat) (metric : Labels) (names : List String) : Nat :=
  h (metric.filter (fun l => decide (l.name ∈ names)))

/-! ## `signature` (vector.go lines 223-244) -/

/-- `signature(metric, without, grouping, keepLabels, buf)`: the 64-bit join
key of one input series together with the label set it contributes to the
output (the scratch `buf` has no observable effect and is omitted). -/
def signature (h : Labels → Nat) (metric : Labels) (without : Bool)
    (grouping : List String) (keepLabels : Bool) : Nat × Labels :=
  let lb := builderDel metric [MetricName]
  if without then
    let dropLabels := grouping ++ [MetricName]
    let key := hashWithoutLabels h metric dropLabels
    (key, if keepLabels then lb else builderDel lb dropLabels)
  else
    let lb2 := if keepLabels then builderKeep lb grouping else lb
    if grouping = [] then (0, lb2)
    else (hashForLabels h metric grouping, lb2)

/-! ## `numberLiteralSelector` (src/unnamed/part_000) -/

/-- The mutable fields of `numberLiteralSelector` plus its configuration.
`call` is the optional wrapping `FunctionCall`; it receives the singleton
series' labels, the one-point slice and the step timestamp, exactly as at the
call site in `Next`. -/
structure NumState where
  mint : Int
  maxt : Int
  step : Int
  currentStep : Int
  stepsBatch : Int
  val : Float
  call : Option (Labels → List Point → Int → Sample)
  seriesLoaded : Bool
  series : List Labels

/-- `loadSeries`: one-shot initialization of the singleton series list
(`sync.Once` modelled by the `seriesLoaded` flag). Go builds `[nil]` without a
wrapping call and `[labels.New()]` with one; both are the empty label set. -/
def loadSeries (s : NumState) : NumState :=
  if s.seriesLoaded then s
  else if s.call.isSome then { s with seriesLoaded := true, series := [[]] }
  else { s with seriesLoaded := true, series := [[]] }

/-- The emission loop of `numberLiteralSelector.Next`: up to `fuel = numSteps`
iterations guarded by `ts <= maxt`, each appending one freshly pooled step
vector carrying the single sample. -/
def buildVectors (s : NumState) : Nat → Int → List StepVector
  | 0, _ => []
  | fuel + 1, ts =>
    if ts ≤ s.maxt then
      let result : Sample :=
        match s.call with
        | none => { T := ts, V := s.val }
        | some f => f (s.series.getD 0 []) [{ T := ts, V := s.val }] ts
      { T := result.T, SampleIDs := [0], Samples := [result.V] } ::
        buildVectors s fuel (ts + s.step)
    else []

/-- `numberLiteralSelector.Next` (src/unnamed/part_000 lines 56-98). The Go
method returns `(vectors, nil)` on every path, so the model has no error
channel; an empty list is the end-of-stream signal. `numSteps` is
`int(math.Min(float64(stepsBatch), float64(totalSteps)))`, exact for the
magnitudes at hand. -/
def numberNext (s0 : NumState) : NumState × List StepVector :=
  if s0.currentStep > s0.maxt then (s0, [])
  else
    let s := loadSeries s0
    let totalSteps : Int := if s.step ≠ 0 then Int.tdiv (s.maxt - s.mint) s.step + 1 else 1
    let numSteps : Int := min s.stepsBatch totalSteps
    let vectors := buildVectors s numSteps.toNat s.currentStep
    ({ s with currentStep := s.currentStep + s.step * numSteps }, vectors)

/-- The selector state after `n` further `Next` calls. -/
def numStateN : Nat → NumState → NumState
  | 0, s => s
  | n + 1, s => numStateN n (numberNext s).1

/-! ## Association-list model of the Go signature maps

`hashes map[uint64][]model.Series` and `inputIndex map[uint64][]uint64` become
association lists in insertion order. -/

/-- Lookup in an association list (Go `m[k]` presence form). -/
def alookup {α : Type} : List (Nat × α) → Nat → Option α
  | [], _ => none
  | (k2, v) :: rest, k => if k2 = k then some v else alookup rest k

/-- Appending `x` to the bucket of `k`, creating the bucket at the end if the
key is new (Go: the `if _, ok := m[sig]; !ok` initialization plus `append`). -/
def bucketAdd {α : Type} : List (Nat × List α) → Nat → α → List (Nat × List α)
  | [], k, x => [(k, [x])]
  | (k2, xs) :: rest, k, x =>
    if k2 = k then (k2, xs ++ [x]) :: rest else (k2, xs) :: bucketAdd rest k x

/-! ## `hashSeries` (vector.go lines 156-173) -/

/-- The loop body of `hashSeries`, iterating the input series with their index
`i`, bucketing `(sig, lbls) := signature(s, ...)` into the two maps. -/
def hashSeriesAux (sigOf : Labels → Nat × Labels) :
    List Labels → Nat → List (Nat × List Series) → List (Nat × List Nat) →
    List (Nat × List Series) × List (Nat × List Nat)
  | [], _, hashes, inputIndex => (hashes, inputIndex)
  | s :: rest, i, hashes, inputIndex =>
    let sl := sigOf s
    hashSeriesAux sigOf rest (i + 1)
      (bucketAdd hashes sl.1 ⟨i, sl.2⟩) (bucketAdd inputIndex sl.1 i)

/-- `hashSeries(series, keepLabels, buf)`: buckets every input series by its
join signature, also recording input ids (the operator's matching fields are
threaded as arguments, the hash as the abstract `h`). -/
def hashSeries (h : Labels → Nat) (matchOn : Bool) (grouping : List String)
    (keepLabels : Bool) (series : List Labels) :
    List (Nat × List Series) × List (Nat × List Nat) :=
  hashSeriesAux (fun s => signature h s (!matchOn) grouping keepLabels) series 0 [] []

/-! ## `join` (vector.go lines 182-221) -/

/-- Every runtime failure the modelled code can hit. The `OOB` constructors
model Go panics at the corresponding slice accesses; `nilDeref` models indexing
a `nil` slice obtained from a missing map key. -/
inductive EngineError where
  | manyToMany
  | lowIndexOOB
  | highIndexOOB
  | nilDeref
  | seriesWriteOOB
  | rhsIndexOOB
deriving DecidableEq, Repr

/-- Bounds-checked write `l[i] = x` (Go panics when `i` is out of range). -/
def setAt {α : Type} (l : List α) (i : Nat) (x : α) : Option (List α) :=
  if i < l.length then some (l.set i x) else none

/-- The inner loop of `join` over one high-cardinality bucket: walks the
bucket's series and, in lockstep, the ids `highCardInputIndex[hash][i]`;
assigns the fresh output id `len(outputIndex)`, records it in both indices. -/
def joinBucket (lowID : Nat) :
    List Series → List Nat → List Series → List (Option Nat) → List (List Nat) →
    Except EngineError (List Series × List (Option Nat) × List (List Nat))
  | [], _, out, hi, lo => .ok (out, hi, lo)
  | _ :: _, [], _, _, _ => .error .nilDeref
  | o :: outs, hid :: hids, out, hi, lo =>
    let newID := out.length
    let out2 := out ++ [⟨newID, o.Metric⟩]
    match setAt hi hid (some newID) with
    | none => .error .highIndexOOB
    | some hi2 =>
      match lo.get? lowID with
      | none => .error .lowIndexOOB
      | some cur =>
        match setAt lo lowID (cur ++ [newID]) with
        | none => .error .lowIndexOOB
        | some lo2 => joinBucket lowID outs hids out2 hi2 lo2

/-- The outer loop of `join` over the (pruned) high-cardinality buckets. For
each bucket: `lowCardSeriesID := lowCardInputIndex[hash][0]` (panics when the
bucket is absent or empty), reset `lowCardOutputIndex[lowCardSeriesID]` to an
empty slice (a write that panics out of bounds — the slice is sized by the
high-cardinality series count), then run the inner loop. -/
def joinLoop (lowInput highInput : List (Nat × List Nat)) :
    List (Nat × List Series) → List Series → List (Option Nat) → List (List Nat) →
    Except EngineError (List Series × List (Option Nat) × List (List Nat))
  | [], out, hi, lo => .ok (out, hi, lo)
  | (k, outs) :: rest, out, hi, lo =>
    match (alookup lowInput k).getD [] with
    | [] => .error .nilDeref
    | lowID :: _ =>
      match setAt lo lowID [] with
      | none => .error .lowIndexOOB
      | some lo1 =>
        match joinBucket lowID outs ((alookup highInput k).getD []) out hi lo1 with
        | .error e => .error e
        | .ok (out2, hi2, lo2) => joinLoop lowInput highInput rest out2 hi2 lo2

/-- `outputSize`: total number of series over all high-cardinality buckets
(accumulated before the pruning decision, so it counts pruned buckets too). -/
def totalLen (m : List (Nat × List Series)) : Nat :=
  (m.map (fun kv => kv.2.length)).sum

/-- `join(highCardHashes, highCardInputIndex, lowCardHashes, lowCardInputIndex)`:
prunes high-cardinality buckets with no matching low-cardinality bucket, then
emits output series with dense ids and builds both array-backed indices, both
allocated with length `outputSize`. -/
def join (highHashes : List (Nat × List Series)) (highInput : List (Nat × List Nat))
    (lowHashes : List (Nat × List Series)) (lowInput : List (Nat × List Nat)) :
    Except EngineError (List Series × List (Option Nat) × List (List Nat)) :=
  let outputSize := totalLen highHashes
  let pruned := highHashes.filter (fun kv => (alookup lowHashes kv.1).isSome)
  joinLoop lowInput highInput pruned []
    (List.replicate outputSize none) (List.replicate outputSize [])

/-! ## `initOutputs` (vector.go lines 71-107) -/

/-- `parser.VectorMatchCardinality`. -/
inductive Card where
  | oneToOne
  | manyToOne
  | oneToMany
  | manyToMany
deriving DecidableEq, Repr

/-- The fields of `parser.VectorMatching` read by vector.go (`Include` is never
referenced there). -/
structure VectorMatching where
  Card : Card
  MatchingLabels : List String
  On : Bool

/-- Modelled from the spec: `newTable` lives in table.go, which is not under
src/; only its call from `initOutputs` is. Per the spec, a one-to-one matching
where a bucket on the high-cardinality side has two or more entries for the
same low-cardinality partner — visible to `newTable` as a
`lowCardOutputIndex` entry holding at least two output ids — and no group
modifier is present (cardinality `CardOneToOne`) is detected at initialization
as a **many-to-many** matching error. -/
def newTable (card : Card) (lowCardOutputIndex : List (List Nat)) :
    Except EngineError Unit :=
  if card = Card.oneToOne ∧ ∃ l ∈ lowCardOutputIndex, 2 ≤ l.length then
    .error .manyToMany
  else .ok ()

/-- The write loop `for _, s := range output { series[s.ID] = s.Metric }`. -/
def writeSeries (acc : List Labels) : List Series → Option (List Labels)
  | [] => some acc
  | s :: rest =>
    match setAt acc s.ID s.Metric with
    | none => none
    | some acc2 => writeSeries acc2 rest

/-- What a successful `initOutputs` stores on the operator. -/
structure InitData where
  series : List Labels
  highCardOutputIndex : List (Option Nat)
  lowCardOutputIndex : List (List Nat)
deriving DecidableEq, Repr

/-- `initOutputs`: fetch both children's series (their label lists are the
`lhsSeries`/`rhsSeries` arguments; child errors are outside these claims),
swap sides for `CardOneToMany`, hash both sides (`keepLabels` true exactly for
the high-cardinality side), join, build the dense `series` slice, and hand the
indices to `newTable`. -/
def initOutputs (h : Labels → Nat) (matching : VectorMatching)
    (lhsSeries rhsSeries : List Labels) : Except EngineError InitData :=
  let sides :=
    if matching.Card = Card.oneToMany then (rhsSeries, lhsSeries)
    else (lhsSeries, rhsSeries)
  let hmaps := hashSeries h matching.On matching.MatchingLabels true sides.1
  let lmaps := hashSeries h matching.On matching.MatchingLabels false sides.2
  match join hmaps.1 hmaps.2 lmaps.1 lmaps.2 with
  | .error e => .error e
  | .ok (output, hiIdx, loIdx) =>
    match writeSeries (List.replicate output.length []) output with
    | none => .error .seriesWriteOOB
    | some series =>
      match newTable matching.Card loIdx with
      | .error e => .error e
      | .ok _ => .ok ⟨series, hiIdx, loIdx⟩

/-! ## The binary operator's `Next` (vector.go lines 109-144) -/

/-- The per-query configuration of the binary operator. `exec` is
`table.execBinaryOperation`, code of table.go absent from src/; its Go
signature at the call site returns a bare `model.StepVector` and no error, so
it is an abstract function — `Next`'s control flow cannot depend on it. -/
structure BinConfig where
  h : Labels → Nat
  matching : VectorMatching
  lhsSeries : List Labels
  rhsSeries : List Labels
  exec : StepVector → StepVector → StepVector

/-- The mutable state of the binary operator: each child operator is its
remaining deterministic stream of batches (a cursor into a fixed list; an
exhausted child keeps answering with an empty batch), plus the one-shot
initialization latch holding the join indices once built. -/
structure BinState where
  lhsBatches : List (List StepVector)
  lhsPos : Nat
  rhsBatches : List (List StepVector)
  rhsPos : Nat
  initDone : Option InitData

/-- One `Next` call on a child operator modelled as a batch stream. -/
def childNext (batches : List (List StepVector)) (pos : Nat) :
    List StepVector × Nat :=
  match batches.get? pos with
  | some b => (b, pos + 1)
  | none => ([], pos)

/-- The step loop of `Next`: `for i := range lhs` evaluates
`execBinaryOperation(lhs[i], rhs[i])`; the access `rhs[i]` is modelled
fallibly because the loop bound is `len(lhs)` (only the pool return is guarded
by `i < len(rhs)`, and pool traffic has no observable value-level effect). -/
def execLoop (exec : StepVector → StepVector → StepVector) :
    List StepVector → List StepVector → Except EngineError (List StepVector)
  | [], _ => .ok []
  | _ :: _, [] => .error .rhsIndexOOB
  | l :: ls, r :: rs =>
    match execLoop exec ls rs with
    | .error e => .error e
    | .ok batch => .ok (exec l r :: batch)

/-- `vectorOperator.Next`: pull one batch from each child, signal end-of-stream
when either is empty (before touching the init latch), otherwise run the
one-shot `initOutputs` and the step loop. -/
def binaryNext (cfg : BinConfig) (st : BinState) :
    Except EngineError (BinState × List StepVector) :=
  let lhsR := childNext st.lhsBatches st.lhsPos
  let rhsR := childNext st.rhsBatches st.rhsPos
  if lhsR.1.length = 0 ∨ rhsR.1.length = 0 then
    .ok ({ st with lhsPos := lhsR.2, rhsPos := rhsR.2 }, [])
  else
    match (match st.initDone with
           | some d => Except.ok d
           | none => initOutputs cfg.h cfg.matching cfg.lhsSeries cfg.rhsSeries) with
    | .error e => .error e
    | .ok d =>
      match execLoop cfg.exec lhsR.1 rhsR.1 with
      | .error e => .error e
      | .ok batch =>
        .ok ({ st with lhsPos := lhsR.2, rhsPos := rhsR.2, initDone := some d }, batch)

/-- The result of the `(n+1)`-th further `Next` call of the binary operator,
threading the state through successful calls. -/
def binNextN (cfg : BinConfig) : Nat → BinState →
    Except EngineError (BinState × List StepVector)
  | 0, st => binaryNext cfg st
  | n + 1, st =>
    match binaryNext cfg st with
    | .error e => .error e
    | .ok (st2, _) => binNextN cfg n st2

/-! ## Spec-side helper definitions used to state the claims -/

/-- The join key of the `j`-th series of a side (`keepLabels` does not affect
the key, see `signature_key_keep_irrel`). -/
def keyAtSig (h : Labels → Nat) (matchOn : Bool) (grouping : List String)
    (keepLabels : Bool) (side : List Labels) (j : Nat) : Nat :=
  (signature h (side.getD j []) (!matchOn) grouping keepLabels).1

/-- The bucket of input ids a side contributes for signature `k`:
all indices of the side whose join key is `k`, in order. -/
def inputBucket (f : Labels → Nat × Labels) (ser : List Labels) (k : Nat) : List Nat :=
  (List.range ser.length).filter (fun j => decide ((f (ser.getD j [])).1 = k))

/-- The label set the `j`-th series of a side contributes to the output. -/
def lblAt (f : Labels → Nat × Labels) (ser : List Labels) (j : Nat) : Labels :=
  (f (ser.getD j [])).2

/-- The association list has pairwise-distinct keys (an invariant of every
map built by `bucketAdd`). -/
def KeysNodup {α : Type} (m : List (Nat × α)) : Prop :=
  (m.map Prod.fst).Nodup

/-- The high-cardinality side picked by `initOutputs`. -/
def highSideOf (matching : VectorMatching) (lhsSeries rhsSeries : List Labels) :
    List Labels :=
  if matching.Card = Card.oneToMany then rhsSeries else lhsSeries

/-- The low-cardinality side picked by `initOutputs`. -/
def lowSideOf (matching : VectorMatching) (lhsSeries rhsSeries : List Labels) :
    List Labels :=
  if matching.Card = Card.oneToMany then lhsSeries else rhsSeries

/-! ## Concrete inputs used by counterexamples, witnesses and bug evaluations -/

/-- C4: instant query (`step = 0`) over `mint = maxt = 1000`, value 1. -/
def c4State : NumState :=
  { mint := 1000, maxt := 1000, step := 0, currentStep := 1000, stepsBatch := 10,
    val := 1.0, call := none, seriesLoaded := false, series := [] }

/-- C9: a concrete hash distinguishing the three label sets in play. -/
def c9Hash : Labels → Nat := fun ls =>
  if ls = [⟨"a", "1"⟩] then 1
  else if ls = [⟨"a", "2"⟩] then 2
  else if ls = [⟨"a", "3"⟩] then 3
  else 0

/-- C9: `on("a")`, one-to-one; the high side has one series, the low side has
three, and the matching low partner has input id 2. -/
def c9Matching : VectorMatching := ⟨Card.oneToOne, ["a"], true⟩

def c9Lhs : List Labels := [[⟨"a", "1"⟩]]

def c9Rhs : List Labels := [[⟨"a", "2"⟩], [⟨"a", "3"⟩], [⟨"a", "1"⟩]]

/-- C1: same hash and shape as C9, but two high-cardinality series share the
join signature of the single matching low-cardinality partner (which has input
id 2 on a low side larger than the high side). -/
def c1Hash : Labels → Nat := fun ls =>
  if ls = [⟨"a", "1"⟩] then 1
  else if ls = [⟨"a", "2"⟩] then 2
  else if ls = [⟨"a", "3"⟩] then 3
  else 0

def c1Matching : VectorMatching := ⟨Card.oneToOne, ["a"], true⟩

def c1Lhs : List Labels := [[⟨"a", "1"⟩, ⟨"b", "x"⟩], [⟨"a", "1"⟩, ⟨"b", "y"⟩]]

def c1Rhs : List Labels := [[⟨"a", "2"⟩], [⟨"a", "3"⟩], [⟨"a", "1"⟩]]

/-- C3: `ignoring("b")`, one-to-one, both series matching on the remaining
label `a`; the high-cardinality series carries the ignored label `b`. -/
def c3Hash : Labels → Nat := fun ls => if ls = [⟨"a", "1"⟩] then 1 else 0

def c3Matching : VectorMatching := ⟨Card.oneToOne, ["b"], false⟩

def c3Lhs : List Labels := [[⟨"a", "1"⟩, ⟨"b", "x"⟩]]

def c3Rhs : List Labels := [[⟨"a", "1"⟩, ⟨"b", "y"⟩]]

/-- C2: one matching series on each side, one batch of one step vector per
child, with misaligned timestamps 100 (lhs) versus 200 (rhs). -/
def c2Config : BinConfig :=
  { h := fun ls => if ls = [⟨"a", "1"⟩] then 1 else 0,
    matching := ⟨Card.oneToOne, ["a"], true⟩,
    lhsSeries := [[⟨"a", "1"⟩]], rhsSeries := [[⟨"a", "1"⟩]],
    exec := fun l _ => l }

def c2State : BinState :=
  { lhsBatches := [[{ T := 100, SampleIDs := [], Samples := [] }]], lhsPos := 0,
    rhsBatches := [[{ T := 200, SampleIDs := [], Samples := [] }]], rhsPos := 0,
    initDone := none }

/-- C10: the lhs child returns a batch of two step vectors, the rhs child a
batch of one; timestamps are aligned where both exist. -/
def c10Config : BinConfig :=
  { h := fun ls => if ls = [⟨"a", "1"⟩] then 1 else 0,
    matching := ⟨Card.oneToOne, ["a"], true⟩,
    lhsSeries := [[⟨"a", "1"⟩]], rhsSeries := [[⟨"a", "1"⟩]],
    exec := fun l _ => l }

def c10State : BinState :=
  { lhsBatches := [[{ T := 100, SampleIDs := [], Samples := [] },
                    { T := 200, SampleIDs := [], Samples := [] }]], lhsPos := 0,
    rhsBatches := [[{ T := 100, SampleIDs := [], Samples := [] }]], rhsPos := 0,
    initDone := none }

/-- C5 witness input: the lhs child is already exhausted. -/
def c5Config : BinConfig :=
  { h := fun _ => 0, matching := ⟨Card.oneToOne, [], true⟩,
    lhsSeries := [], rhsSeries := [],
    exec := fun l _ => l }

def c5State : BinState :=
  { lhsBatches := [], lhsPos := 0,
    rhsBatches := [[{ T := 100, SampleIDs := [], Samples := [] }]], rhsPos := 0,
    initDone := none }

/-- C2 witness input: as the C2 counterexample, but the one-shot latch already
holds the initialization data (a `Series` call has run). -/
def c2WState : BinState :=
  { lhsBatches := [[{ T := 100, SampleIDs := [], Samples := [] }]], lhsPos := 0,
    rhsBatches := [[{ T := 200, SampleIDs := [], Samples := [] }]], rhsPos := 0,
    initDone := some ⟨[[⟨"a", "1"⟩]], [some 0], [[0]]⟩ }

/-- C6 witness input: a number-literal selector past its range. -/
def c6NumState : NumState :=
  { mint := 0, maxt := 0, step := 1000, currentStep := 1000, stepsBatch := 10,
    val := 1.0, call := none, seriesLoaded := false, series := [] }

/-- C6 witness input: a binary operator whose children are both exhausted. -/
def c6Config : BinConfig :=
  { h := fun _ => 0, matching := ⟨Card.oneToOne, [], true⟩,
    lhsSeries := [], rhsSeries := [],
    exec := fun l _ => l }

def c6BinState : BinState :=
  { lhsBatches := [], lhsPos := 0, rhsBatches := [], rhsPos := 0, initDone := none }

/-- The per-call step budget `min(stepsBatch, totalSteps)` of the
number-literal selector, a function of the immutable fields only. -/
def numStepsOf (s : NumState) : Int :=
  min s.stepsBatch (if s.step ≠ 0 then Int.tdiv (s.maxt - s.mint) s.step + 1 else 1)

/-- The binary-operator state after one `Next` in which both children were
pulled and no initialization was recorded. -/
def advanceState (st : BinState) : BinState :=
  { st with lhsPos := (childNext st.lhsBatches st.lhsPos).2,
            rhsPos := (childNext st.rhsBatches st.rhsPos).2 }

/-- At least one child of the binary operator is exhausted. -/
def Exhausted (st : BinState) : Prop :=
  st.lhsBatches.length ≤ st.lhsPos ∨ st.rhsBatches.length ≤ st.rhsPos

/-- C1 witness input: as the C1 counterexample but with a single
low-cardinality series, so every index write is in bounds. -/
def c1RhsW : List Labels := [[⟨"a", "1"⟩]]

/-- C8 witness input: one matching series on each side, `on("a")`. -/
def c8Hash : Labels → Nat := fun ls => if ls = [⟨"a", "1"⟩] then 1 else 0

def c8High : List Labels := [[⟨"a", "1"⟩]]

def c8Low : List Labels := [[⟨"a", "1"⟩]]

def c8Out : List Series := [⟨0, [⟨"a", "1"⟩]⟩]

def c8Hi : List (Option Nat) := [some 0]

def c8Lo : List (List Nat) := [[0]]

/-! # Theorems -/

/-! ## General lemmas about the step loop -/

/-- The step loop succeeds whenever the rhs batch is at least as long as the
lhs batch (the loop bound is `len(lhs)`). -/
theorem execLoop_ok_of_le (exec : StepVector → StepVector → StepVector) :
    ∀ (ls rs : List StepVector), ls.length ≤ rs.length →
      ∃ batch, execLoop exec ls rs = .ok batch ∧ batch.length = ls.length := by
  intro ls
  induction ls with
  | nil => intro rs _; exact ⟨[], rfl, rfl⟩
  | cons l ls ih =>
    intro rs hle
    cases rs with
    | nil => simp at hle
    | cons r rs =>
      obtain ⟨b, hb, hblen⟩ := ih rs (Nat.succ_le_succ_iff.mp hle)
      exact ⟨exec l r :: b, by simp [execLoop, hb], by simp [hblen]⟩

/-- The step loop over a non-empty lhs batch never returns an empty batch. -/
theorem execLoop_cons_ne_nil (exec : StepVector → StepVector → StepVector)
    (l : StepVector) (ls rs : List StepVector) :
    execLoop exec (l :: ls) rs ≠ .ok [] := by
  cases rs with
  | nil => simp [execLoop]
  | cons r rs =>
    unfold execLoop
    cases execLoop exec ls rs <;> simp

/-! ## Claim C4 -/

/-- Claim C4 (code-bug evidence): on an instant query (`step = 0`,
`mint = maxt = 1000`) the first `Next` emits one step vector at `t = 1000`,
but `currentStep` never advances (`currentStep += step * numSteps` adds zero),
so the second `Next` emits a step vector at `t = 1000` again — the claimed
"exactly one step vector at timestamp mint in total" is violated and the
selector never reaches end-of-stream. -/
theorem C4_code_evaluation :
    ((numberNext c4State).2).map (fun v => v.T) = [1000]
    ∧ (numberNext c4State).1.currentStep = 1000
    ∧ ((numberNext (numberNext c4State).1).2).map (fun v => v.T) = [1000] :=
  ⟨rfl, rfl, rfl⟩

/-! ## Claim C9 -/

/-- Claim C9 (code-bug evidence): `join` writes `lowCardOutputIndex`, a slice
allocated with length `outputSize` = 1 (the number of high-cardinality input
series), at the matching low-cardinality partner's input id 2 — out of
bounds, a Go panic. The claim that `join` is total is false on the code. -/
theorem C9_code_evaluation :
    initOutputs c9Hash c9Matching c9Lhs c9Rhs = .error .lowIndexOOB := rfl

/-! ## Claim C10 -/

/-- Claim C10 (code-bug evidence): with a two-vector lhs batch and a
one-vector rhs batch, the step loop of `Next` evaluates
`execBinaryOperation(lhs[1], rhs[1])` and the access `rhs[1]` is out of
bounds — a Go panic — even though the pool return three lines below is
guarded by `i < len(rhs)`. -/
theorem C10_code_evaluation :
    binaryNext c10Config c10State = .error .rhsIndexOOB := rfl

/-! ## Claim C1 -/

/-- Claim C1 counterexample: a one-to-one matching (no group modifier) in
which the two high-cardinality input series share the join signature of the
single matching low-cardinality partner, yet initialization does not return
the many-to-many error: `join` panics first, writing `lowCardOutputIndex`
(length 2, the high-cardinality series count) at the partner's input id 2. -/
theorem C1_counterexample :
    (signature c1Hash (c1Lhs.getD 0 []) false ["a"] true).1 =
      (signature c1Hash (c1Lhs.getD 1 []) false ["a"] true).1
    ∧ (signature c1Hash (c1Rhs.getD 2 []) false ["a"] false).1 =
      (signature c1Hash (c1Lhs.getD 0 []) false ["a"] true).1
    ∧ c1Matching.Card = Card.oneToOne
    ∧ initOutputs c1Hash c1Matching c1Lhs c1Rhs = .error .lowIndexOOB :=
  ⟨rfl, rfl, rfl, rfl⟩

/-! ## Claim C2 -/

/-- Claim C2 counterexample: both children return non-empty batches whose
aligned step vectors carry different timestamps (100 on the lhs, 200 on the
rhs), yet `Next` returns a normal batch and no error — the claimed
step-alignment error does not exist in the code (`execBinaryOperation`
returns a bare step vector, so `Next` has no per-step error source). -/
theorem C2_counterexample :
    (c2State.lhsBatches.getD 0 []).map (fun v => v.T) = [100]
    ∧ (c2State.rhsBatches.getD 0 []).map (fun v => v.T) = [200]
    ∧ binaryNext c2Config c2State =
        .ok ({ lhsBatches := [[{ T := 100, SampleIDs := [], Samples := [] }]],
               lhsPos := 1,
               rhsBatches := [[{ T := 200, SampleIDs := [], Samples := [] }]],
               rhsPos := 1,
               initDone := some ⟨[[⟨"a", "1"⟩]], [some 0], [[0]]⟩ },
             [{ T := 100, SampleIDs := [], Samples := [] }]) :=
  ⟨rfl, rfl, rfl⟩

/-- Claim C2 (amended): `Next` performs no timestamp comparison. Once the
operator is initialized, whenever both children return non-empty batches and
the rhs batch is at least as long as the lhs batch, `Next` returns a batch
with no error — even when some aligned pair of step vectors carries different
timestamps. -/
theorem C2_amended_no_alignment_error (cfg : BinConfig) (st : BinState) (d : InitData)
    (hinit : st.initDone = some d)
    (hlhs : (childNext st.lhsBatches st.lhsPos).1 ≠ [])
    (hrhs : (childNext st.rhsBatches st.rhsPos).1 ≠ [])
    (hlen : (childNext st.lhsBatches st.lhsPos).1.length ≤
            (childNext st.rhsBatches st.rhsPos).1.length)
    (hmis : ∃ i,
      ((childNext st.lhsBatches st.lhsPos).1.getD i ⟨0, [], []⟩).T ≠
      ((childNext st.rhsBatches st.rhsPos).1.getD i ⟨0, [], []⟩).T) :
    ∃ st2 batch, binaryNext cfg st = .ok (st2, batch) := by
  obtain ⟨batch, hb, -⟩ :=
    execLoop_ok_of_le cfg.exec (childNext st.lhsBatches st.lhsPos).1
      (childNext st.rhsBatches st.rhsPos).1 hlen
  have hl0 : ¬ (childNext st.lhsBatches st.lhsPos).1.length = 0 :=
    fun hc => hlhs (List.length_eq_zero.mp hc)
  have hr0 : ¬ (childNext st.rhsBatches st.rhsPos).1.length = 0 :=
    fun hc => hrhs (List.length_eq_zero.mp hc)
  have heq : binaryNext cfg st =
      .ok ({ st with lhsPos := (childNext st.lhsBatches st.lhsPos).2, rhsPos := (childNext st.rhsBatches st.rhsPos).2, initDone := some d }, batch) := by
    unfold binaryNext
    rw [if_neg (by push_neg; exact ⟨hl0, hr0⟩), hinit, hb]
  exact ⟨_, _, heq⟩

/-- Claim C2 witness: the amended theorem applied at the concrete misaligned
input. -/
theorem C2_witness :
    ∃ st2 batch, binaryNext c2Config c2WState = .ok (st2, batch) :=
  C2_amended_no_alignment_error c2Config c2WState ⟨[[⟨"a", "1"⟩]], [some 0], [[0]]⟩
    rfl (by simp [childNext, c2WState]) (by simp [childNext, c2WState])
    (by decide) ⟨0, by decide⟩

/-! ## Claim C5 -/

/-- Claim C5: whenever at least one child's batch for the step is empty, the
binary operator still pulls one batch from each child (both cursors advance as
the children dictate) and returns an empty batch with no error. -/
theorem C5_empty_input_terminates (cfg : BinConfig) (st : BinState)
    (hempty : (childNext st.lhsBatches st.lhsPos).1 = []
            ∨ (childNext st.rhsBatches st.rhsPos).1 = []) :
    binaryNext cfg st =
      .ok ({ st with lhsPos := (childNext st.lhsBatches st.lhsPos).2,
                     rhsPos := (childNext st.rhsBatches st.rhsPos).2 }, []) := by
  unfold binaryNext
  rcases hempty with he | he <;> simp [he]

/-- Claim C5 witness: the theorem applied with an exhausted lhs child and a
non-empty rhs batch. -/
theorem C5_witness :
    binaryNext c5Config c5State =
      .ok ({ c5State with
              lhsPos := (childNext c5State.lhsBatches c5State.lhsPos).2,
              rhsPos := (childNext c5State.rhsBatches c5State.rhsPos).2 }, []) :=
  C5_empty_input_terminates c5Config c5State (Or.inl rfl)

/-! ## Claim C6 -/

/-- `loadSeries` touches only the series fields. -/
theorem loadSeries_preserves (s : NumState) :
    (loadSeries s).mint = s.mint ∧ (loadSeries s).maxt = s.maxt ∧
    (loadSeries s).step = s.step ∧ (loadSeries s).stepsBatch = s.stepsBatch ∧
    (loadSeries s).currentStep = s.currentStep := by
  unfold loadSeries
  split
  · exact ⟨rfl, rfl, rfl, rfl, rfl⟩
  · split <;> exact ⟨rfl, rfl, rfl, rfl, rfl⟩

/-- The emission loop yields at least one vector when it has fuel and the
first timestamp is within range. -/
theorem buildVectors_ne_nil (s : NumState) (fuel : Nat) (ts : Int)
    (hts : ts ≤ s.maxt) : buildVectors s (fuel + 1) ts ≠ [] := by
  unfold buildVectors
  rw [if_pos hts]
  simp

/-- `numberNext` past the range: the state is frozen. -/
theorem numberNext_of_gt (s : NumState) (h : s.currentStep > s.maxt) :
    numberNext s = (s, []) := by
  unfold numberNext
  rw [if_pos h]

/-- `numberNext` in the in-range case, written over the pre-call fields. -/
theorem numberNext_eq (s : NumState) (h : ¬ s.currentStep > s.maxt) :
    numberNext s =
      ({ loadSeries s with currentStep := s.currentStep + s.step * numStepsOf s },
       buildVectors (loadSeries s) (numStepsOf s).toNat s.currentStep) := by
  obtain ⟨h1, h2, h3, h4, h5⟩ := loadSeries_preserves s
  unfold numberNext numStepsOf
  rw [if_neg h]
  simp only [h1, h2, h3, h4, h5]

/-- The step budget only depends on the immutable fields, which `Next`
preserves. -/
theorem numStepsOf_next (s : NumState) (h : ¬ s.currentStep > s.maxt) :
    numStepsOf (numberNext s).1 = numStepsOf s := by
  obtain ⟨h1, h2, h3, h4, h5⟩ := loadSeries_preserves s
  rw [numberNext_eq s h]
  show min (loadSeries s).stepsBatch
      (if (loadSeries s).step ≠ 0
       then Int.tdiv ((loadSeries s).maxt - (loadSeries s).mint) (loadSeries s).step + 1
       else 1) = _
  rw [h1, h2, h3, h4]
  rfl

/-- `Next` also preserves `maxt`. -/
theorem numberNext_maxt (s : NumState) : (numberNext s).1.maxt = s.maxt := by
  by_cases h : s.currentStep > s.maxt
  · rw [numberNext_of_gt s h]
  · rw [numberNext_eq s h]
    exact (loadSeries_preserves s).2.1

/-- One-step preservation of end-of-stream for the number-literal selector:
an empty `Next` result is followed by another empty result. -/
theorem numberNext_empty_step (s : NumState) (he : (numberNext s).2 = []) :
    (numberNext (numberNext s).1).2 = [] := by
  by_cases hgt : s.currentStep > s.maxt
  · rw [numberNext_of_gt s hgt]
    show (numberNext s).2 = []
    rw [numberNext_of_gt s hgt]
  · have hz : (numStepsOf s).toNat = 0 := by
      by_contra hnz
      obtain ⟨fuel, hfuel⟩ := Nat.exists_eq_succ_of_ne_zero hnz
      rw [numberNext_eq s hgt] at he
      simp only at he
      rw [hfuel] at he
      exact buildVectors_ne_nil (loadSeries s) fuel s.currentStep
        (by rw [(loadSeries_preserves s).2.1]; exact not_lt.mp hgt) he
    by_cases hgt2 : (numberNext s).1.currentStep > (numberNext s).1.maxt
    · rw [numberNext_of_gt _ hgt2]
    · rw [numberNext_eq _ hgt2, numStepsOf_next s hgt, hz]
      rfl

/-- End-of-stream is absorbing for the number-literal selector. -/
theorem numberNext_empty_iter (s : NumState) (he : (numberNext s).2 = []) :
    ∀ n, (numberNext (numStateN n s)).2 = [] := by
  intro n
  induction n generalizing s with
  | zero => exact he
  | succ n ih => exact ih (numberNext s).1 (numberNext_empty_step s he)

/-- A child whose batches are all non-empty answers with an empty batch only
when it is exhausted. -/
theorem childNext_empty (bs : List (List StepVector)) (p : Nat)
    (hpr : ∀ b ∈ bs, b ≠ []) (he : (childNext bs p).1 = []) :
    bs.length ≤ p := by
  unfold childNext at he
  cases hg : bs.get? p with
  | none => exact List.get?_eq_none.mp hg
  | some b =>
    rw [hg] at he
    exact absurd he (hpr b (List.get?_mem hg))

/-- An exhausted child answers with an empty batch and an unchanged cursor. -/
theorem childNext_exhausted (bs : List (List StepVector)) (p : Nat)
    (hex : bs.length ≤ p) : childNext bs p = ([], p) := by
  unfold childNext
  rw [List.get?_eq_none.mpr hex]

/-- Shared form of claim C5: when either child's batch is empty the operator
returns an empty batch, no error, both cursors advanced as the children
dictate. -/
theorem binaryNext_empty_of_child_empty (cfg : BinConfig) (st : BinState)
    (hempty : (childNext st.lhsBatches st.lhsPos).1 = []
            ∨ (childNext st.rhsBatches st.rhsPos).1 = []) :
    binaryNext cfg st = .ok (advanceState st, []) := by
  unfold binaryNext advanceState
  rcases hempty with he | he <;> simp [he]

/-- Advancing preserves exhaustion (the exhausted cursor does not move). -/
theorem exhausted_advance (st : BinState) (hex : Exhausted st) :
    Exhausted (advanceState st) := by
  rcases hex with hx | hx
  · refine Or.inl ?_
    show st.lhsBatches.length ≤ (childNext st.lhsBatches st.lhsPos).2
    rw [childNext_exhausted _ _ hx]
    exact hx
  · refine Or.inr ?_
    show st.rhsBatches.length ≤ (childNext st.rhsBatches st.rhsPos).2
    rw [childNext_exhausted _ _ hx]
    exact hx

/-- An exhausted binary operator answers with an empty batch and no error. -/
theorem binaryNext_exhausted (cfg : BinConfig) (st : BinState) (hex : Exhausted st) :
    binaryNext cfg st = .ok (advanceState st, []) := by
  apply binaryNext_empty_of_child_empty
  rcases hex with hx | hx
  · exact Or.inl (by rw [childNext_exhausted _ _ hx])
  · exact Or.inr (by rw [childNext_exhausted _ _ hx])

/-- Every further call of an exhausted binary operator answers with an empty
batch and no error. -/
theorem binNextN_exhausted (cfg : BinConfig) : ∀ (n : Nat) (st : BinState),
    Exhausted st →
    ∃ st2, binNextN cfg n st = .ok (st2, []) ∧ Exhausted st2 := by
  intro n
  induction n with
  | zero =>
    intro st hex
    exact ⟨advanceState st, binaryNext_exhausted cfg st hex, exhausted_advance st hex⟩
  | succ n ih =>
    intro st hex
    obtain ⟨st2, h2, hx2⟩ := ih (advanceState st) (exhausted_advance st hex)
    refine ⟨st2, ?_, hx2⟩
    show (match binaryNext cfg st with
          | Except.error e => Except.error e
          | Except.ok (st2, _) => binNextN cfg n st2) = _
    rw [binaryNext_exhausted cfg st hex]
    exact h2

/-- Inverting a successful empty answer of `binaryNext`: with well-behaved
children (no empty batch inside their streams) it can only come from an
exhausted child. -/
theorem binaryNext_ok_empty_inv (cfg : BinConfig) (st st1 : BinState)
    (hprL : ∀ b ∈ st.lhsBatches, b ≠ []) (hprR : ∀ b ∈ st.rhsBatches, b ≠ [])
    (hok : binaryNext cfg st = .ok (st1, [])) : Exhausted st1 := by
  by_cases hc : (childNext st.lhsBatches st.lhsPos).1.length = 0
      ∨ (childNext st.rhsBatches st.rhsPos).1.length = 0
  · have hc2 : (childNext st.lhsBatches st.lhsPos).1 = []
        ∨ (childNext st.rhsBatches st.rhsPos).1 = [] := by
      rcases hc with hx | hx
      · exact Or.inl (List.length_eq_zero.mp hx)
      · exact Or.inr (List.length_eq_zero.mp hx)
    rw [binaryNext_empty_of_child_empty cfg st hc2] at hok
    have hst1 : advanceState st = st1 := by
      injection hok with h1
      exact congrArg Prod.fst h1
    rw [← hst1]
    apply exhausted_advance
    rcases hc2 with hx | hx
    · exact Or.inl (childNext_empty _ _ hprL hx)
    · exact Or.inr (childNext_empty _ _ hprR hx)
  · exfalso
    obtain ⟨v, vs, hL⟩ : ∃ v vs, (childNext st.lhsBatches st.lhsPos).1 = v :: vs := by
      cases hq : (childNext st.lhsBatches st.lhsPos).1 with
      | nil => exact absurd (Or.inl (by rw [hq]; rfl)) hc
      | cons v vs => exact ⟨v, vs, rfl⟩
    unfold binaryNext at hok
    rw [if_neg hc] at hok
    cases hinit : (match st.initDone with
        | some d => Except.ok d
        | none => initOutputs cfg.h cfg.matching cfg.lhsSeries cfg.rhsSeries) with
    | error e =>
      rw [hinit] at hok
      simp at hok
    | ok d =>
      rw [hinit] at hok
      cases hex : execLoop cfg.exec (childNext st.lhsBatches st.lhsPos).1
          (childNext st.rhsBatches st.rhsPos).1 with
      | error e =>
        rw [hex] at hok
        simp at hok
      | ok batch =>
        rw [hex] at hok
        simp only [Except.ok.injEq, Prod.mk.injEq] at hok
        rw [hL, hok.2] at hex
        exact execLoop_cons_ne_nil cfg.exec v vs _ hex

/-- Claim C6: once a `Next` call has returned an empty result, every
subsequent `Next` call also returns an empty result with no error — for the
number-literal selector unconditionally (its `Next` has no error path at
all), and for the binary operator whenever its children obey the operator
contract (their streams contain no empty batch before exhaustion, and an
exhausted child keeps answering with an empty batch). -/
theorem C6_next_after_eos_empty :
    (∀ s : NumState, (numberNext s).2 = [] →
       ∀ n : Nat, (numberNext (numStateN n (numberNext s).1)).2 = [])
    ∧ (∀ (cfg : BinConfig) (st st1 : BinState),
         (∀ b ∈ st.lhsBatches, b ≠ []) →
         (∀ b ∈ st.rhsBatches, b ≠ []) →
         binaryNext cfg st = .ok (st1, []) →
         ∀ n : Nat, ∃ st2, binNextN cfg n st1 = .ok (st2, [])) := by
  constructor
  · intro s he n
    exact numberNext_empty_iter (numberNext s).1 (numberNext_empty_step s he) n
  · intro cfg st st1 hprL hprR hok n
    obtain ⟨st2, h2, -⟩ :=
      binNextN_exhausted cfg n st1 (binaryNext_ok_empty_inv cfg st st1 hprL hprR hok)
    exact ⟨st2, h2⟩

/-- Claim C6 witness: both clauses applied at concrete exhausted inputs. -/
theorem C6_witness :
    (numberNext (numStateN 1 (numberNext c6NumState).1)).2 = []
    ∧ ∃ st2, binNextN c6Config 1 c6BinState = .ok (st2, []) :=
  ⟨C6_next_after_eos_empty.1 c6NumState rfl 1,
   C6_next_after_eos_empty.2 c6Config c6BinState c6BinState
     (fun b hb => absurd hb (List.not_mem_nil b))
     (fun b hb => absurd hb (List.not_mem_nil b)) rfl 1⟩

/-! ## Claim C7 -/

/-- Claim C7: the join signature of an input series is, for `ignoring(Ls)`
(`without = true`), the hash of its labels excluding `Ls ∪ \x7b__name__\x7d`; for
`on(Ls)` with non-empty `Ls`, the hash of its labels restricted to `Ls`; and
for `on()` with empty `Ls`, the constant 0 (cross-join key) — for either value
of `keepLabels`, i.e. on both sides of the join. -/
theorem C7_join_signature (h : Labels → Nat) (metric : Labels)
    (grouping : List String) (keepLabels : Bool) :
    (signature h metric true grouping keepLabels).1 =
      h (metric.filter (fun l => decide (¬ (l.name ∈ grouping ∨ l.name = MetricName))))
    ∧ (signature h metric false grouping keepLabels).1 =
      (if grouping = [] then 0
       else h (metric.filter (fun l => decide (l.name ∈ grouping)))) := by
  constructor
  · show hashWithoutLabels h metric (grouping ++ [MetricName]) = _
    unfold hashWithoutLabels
    congr 1
    apply List.filter_congr
    intro a _
    simp only [decide_eq_decide, List.mem_append, List.mem_singleton, MetricName]
    tauto
  · by_cases hg : grouping = []
    · simp [signature, hg]
    · simp [signature, hashForLabels, hg]

/-! ## Association-map lemmas -/

theorem bucketAdd_cons_self {α : Type} (k : Nat) (xs : List α)
    (rest : List (Nat × List α)) (x : α) :
    bucketAdd ((k, xs) :: rest) k x = (k, xs ++ [x]) :: rest := by
  simp [bucketAdd]

theorem bucketAdd_cons_ne {α : Type} (k2 k : Nat) (hk : k2 ≠ k) (xs : List α)
    (rest : List (Nat × List α)) (x : α) :
    bucketAdd ((k2, xs) :: rest) k x = (k2, xs) :: bucketAdd rest k x := by
  simp [bucketAdd, hk]

theorem alookup_nil {α : Type} (k : Nat) : alookup ([] : List (Nat × α)) k = none := rfl

theorem alookup_cons_self {α : Type} (k : Nat) (v : α) (rest : List (Nat × α)) :
    alookup ((k, v) :: rest) k = some v := by
  simp [alookup]

theorem alookup_cons_ne {α : Type} (k2 k : Nat) (hk : k2 ≠ k) (v : α)
    (rest : List (Nat × α)) : alookup ((k2, v) :: rest) k = alookup rest k := by
  simp [alookup, hk]

theorem alookup_bucketAdd_self {α : Type} (m : List (Nat × List α)) (k : Nat) (x : α) :
    alookup (bucketAdd m k x) k = some ((alookup m k).getD [] ++ [x]) := by
  induction m with
  | nil => simp [bucketAdd, alookup]
  | cons kv rest ih =>
    obtain ⟨k2, xs⟩ := kv
    by_cases hk : k2 = k
    · subst hk
      rw [bucketAdd_cons_self, alookup_cons_self, alookup_cons_self]
      rfl
    · rw [bucketAdd_cons_ne k2 k hk, alookup_cons_ne k2 k hk, alookup_cons_ne k2 k hk, ih]

theorem alookup_bucketAdd_ne {α : Type} (m : List (Nat × List α)) (k k2 : Nat) (x : α)
    (hne : k2 ≠ k) : alookup (bucketAdd m k x) k2 = alookup m k2 := by
  have hne2 : k ≠ k2 := fun h => hne h.symm
  induction m with
  | nil =>
    show alookup [(k, [x])] k2 = none
    rw [alookup_cons_ne k k2 hne2, alookup_nil]
  | cons kv rest ih =>
    obtain ⟨k3, xs⟩ := kv
    by_cases hk : k3 = k
    · rw [hk, bucketAdd_cons_self, alookup_cons_ne k k2 hne2, alookup_cons_ne k k2 hne2]
    · rw [bucketAdd_cons_ne k3 k hk]
      by_cases hk2 : k3 = k2
      · subst hk2
        rw [alookup_cons_self, alookup_cons_self]
      · rw [alookup_cons_ne k3 k2 hk2, alookup_cons_ne k3 k2 hk2, ih]

theorem mem_keys_bucketAdd {α : Type} (m : List (Nat × List α)) (k k2 : Nat) (x : α) :
    k2 ∈ (bucketAdd m k x).map Prod.fst ↔ k2 ∈ m.map Prod.fst ∨ k2 = k := by
  induction m with
  | nil => simp [bucketAdd]
  | cons kv rest ih =>
    obtain ⟨k3, xs⟩ := kv
    by_cases hk : k3 = k
    · subst hk
      rw [bucketAdd_cons_self]
      simp
      tauto
    · rw [bucketAdd_cons_ne k3 k hk]
      simp only [List.map_cons, List.mem_cons, ih]
      tauto

theorem keysNodup_bucketAdd {α : Type} (m : List (Nat × List α)) (k : Nat) (x : α)
    (h : KeysNodup m) : KeysNodup (bucketAdd m k x) := by
  induction m with
  | nil => simp [KeysNodup, bucketAdd]
  | cons kv rest ih =>
    obtain ⟨k3, xs⟩ := kv
    unfold KeysNodup at h
    rw [List.map_cons, List.nodup_cons] at h
    by_cases hk : k3 = k
    · subst hk
      unfold KeysNodup
      rw [bucketAdd_cons_self, List.map_cons, List.nodup_cons]
      exact h
    · unfold KeysNodup
      rw [bucketAdd_cons_ne k3 k hk, List.map_cons, List.nodup_cons]
      refine ⟨?_, ih h.2⟩
      intro hmem
      rcases (mem_keys_bucketAdd rest k k3 x).mp hmem with hx | hx
      · exact h.1 hx
      · exact hk hx

theorem alookup_mem {α : Type} (m : List (Nat × α)) (k : Nat) (v : α)
    (h : alookup m k = some v) : (k, v) ∈ m := by
  induction m with
  | nil => simp [alookup] at h
  | cons kv rest ih =>
    obtain ⟨k2, v2⟩ := kv
    by_cases hk : k2 = k
    · subst hk
      rw [alookup_cons_self] at h
      injection h with hv
      subst hv
      exact List.mem_cons_self _ _
    · rw [alookup_cons_ne k2 k hk] at h
      exact List.mem_cons_of_mem _ (ih h)

theorem mem_alookup_of_nodup {α : Type} (m : List (Nat × α)) (k : Nat) (v : α)
    (hnd : KeysNodup m) (hm : (k, v) ∈ m) : alookup m k = some v := by
  induction m with
  | nil => simp at hm
  | cons kv rest ih =>
    obtain ⟨k2, v2⟩ := kv
    unfold KeysNodup at hnd
    rw [List.map_cons, List.nodup_cons] at hnd
    rcases List.mem_cons.mp hm with hx | hx
    · injection hx with hk hv
      subst hk
      subst hv
      rw [alookup_cons_self]
    · by_cases hk : k2 = k
      · exfalso
        subst hk
        exact hnd.1 (List.mem_map.mpr ⟨(k2, v), hx, rfl⟩)
      · rw [alookup_cons_ne k2 k hk]
        exact ih hnd.2 hx

theorem keysNodup_filter {α : Type} (m : List (Nat × α)) (p : Nat × α → Bool)
    (h : KeysNodup m) : KeysNodup (m.filter p) :=
  ((m.filter_sublist).map Prod.fst).nodup h

/-! ## `hashSeries` bucket characterization -/

theorem hashSeriesAux_append (f : Labels → Nat × Labels) (l1 l2 : List Labels) :
    ∀ (i : Nat) (H : List (Nat × List Series)) (I : List (Nat × List Nat)),
    hashSeriesAux f (l1 ++ l2) i H I =
      hashSeriesAux f l2 (i + l1.length)
        (hashSeriesAux f l1 i H I).1 (hashSeriesAux f l1 i H I).2 := by
  induction l1 with
  | nil =>
    intro i H I
    simp [hashSeriesAux]
  | cons s rest ih =>
    intro i H I
    show hashSeriesAux f (rest ++ l2) (i + 1) _ _ = _
    rw [ih]
    have harith : i + (s :: rest).length = i + 1 + rest.length := by
      simp [List.length_cons]
      omega
    rw [harith]
    rfl

theorem hashSeriesAux_snoc (f : Labels → Nat × Labels) (ser : List Labels) (s : Labels) :
    hashSeriesAux f (ser ++ [s]) 0 [] [] =
      (bucketAdd (hashSeriesAux f ser 0 [] []).1 (f s).1 ⟨ser.length, (f s).2⟩,
       bucketAdd (hashSeriesAux f ser 0 [] []).2 (f s).1 ser.length) := by
  rw [hashSeriesAux_append f ser [s] 0 [] []]
  show (bucketAdd (hashSeriesAux f ser 0 [] []).1 (f s).1 ⟨0 + ser.length, (f s).2⟩,
        bucketAdd (hashSeriesAux f ser 0 [] []).2 (f s).1 (0 + ser.length)) = _
  rw [Nat.zero_add]

theorem inputBucket_nil (f : Labels → Nat × Labels) (k : Nat) :
    inputBucket f [] k = [] := rfl

theorem inputBucket_snoc (f : Labels → Nat × Labels) (ser : List Labels) (s : Labels)
    (k : Nat) :
    inputBucket f (ser ++ [s]) k =
      inputBucket f ser k ++ (if (f s).1 = k then [ser.length] else []) := by
  unfold inputBucket
  have hlen : (ser ++ [s]).length = ser.length + 1 := by simp
  rw [hlen, List.range_succ, List.filter_append]
  congr 1
  · apply List.filter_congr
    intro j hj
    rw [List.getD_append _ _ _ _ (List.mem_range.mp hj)]
  · have hget : (ser ++ [s]).getD ser.length [] = s := by
      rw [List.getD_append_right _ _ _ _ (Nat.le_refl _), Nat.sub_self]
      rfl
    by_cases hk : (f s).1 = k
    · rw [if_pos hk]
      simp [List.filter, hget, hk]
    · rw [if_neg hk]
      simp [List.filter, hget, hk]

theorem inputBucket_mem (f : Labels → Nat × Labels) (ser : List Labels) (k j : Nat) :
    j ∈ inputBucket f ser k ↔ j < ser.length ∧ (f (ser.getD j [])).1 = k := by
  unfold inputBucket
  rw [List.mem_filter, List.mem_range]
  simp

/-- Characterization of the input-id map built by `hashSeries`: bucket `k`
holds exactly the input ids whose signature is `k`, in order. -/
theorem hashSeries_input_lookup (f : Labels → Nat × Labels) (ser : List Labels) (k : Nat) :
    alookup (hashSeriesAux f ser 0 [] []).2 k =
      if inputBucket f ser k = [] then none else some (inputBucket f ser k) := by
  induction ser using List.reverseRecOn with
  | nil => rfl
  | append_singleton ser s ih =>
    by_cases hk : (f s).1 = k
    · rw [hashSeriesAux_snoc]
      show alookup (bucketAdd (hashSeriesAux f ser 0 [] []).2 (f s).1 ser.length) k = _
      rw [hk, alookup_bucketAdd_self, ih, inputBucket_snoc, if_pos hk]
      cases hB : inputBucket f ser k with
      | nil => simp
      | cons b bs => simp
    · rw [hashSeriesAux_snoc]
      show alookup (bucketAdd (hashSeriesAux f ser 0 [] []).2 (f s).1 ser.length) k = _
      have hne : k ≠ (f s).1 := fun hx => hk hx.symm
      rw [alookup_bucketAdd_ne _ _ _ _ hne, ih, inputBucket_snoc, if_neg hk,
        List.append_nil]

/-- Characterization of the series map built by `hashSeries`: bucket `k`
holds the series `⟨j, lbls(j)⟩` for exactly the input ids `j` whose signature
is `k`, in order. -/
theorem hashSeries_hash_lookup (f : Labels → Nat × Labels) (ser : List Labels) (k : Nat) :
    alookup (hashSeriesAux f ser 0 [] []).1 k =
      if inputBucket f ser k = [] then none
      else some ((inputBucket f ser k).map
        (fun j => ⟨j, (f (ser.getD j [])).2⟩)) := by
  induction ser using List.reverseRecOn with
  | nil => rfl
  | append_singleton ser s ih =>
    have hget : (ser ++ [s]).getD ser.length [] = s := by
      rw [List.getD_append_right _ _ _ _ (Nat.le_refl _), Nat.sub_self]
      rfl
    have hmap : (inputBucket f ser k).map
        (fun j => (⟨j, (f ((ser ++ [s]).getD j [])).2⟩ : Series)) =
        (inputBucket f ser k).map (fun j => ⟨j, (f (ser.getD j [])).2⟩) := by
      apply List.map_congr_left
      intro j hj
      have hjlt : j < ser.length := ((inputBucket_mem f ser k j).mp hj).1
      rw [List.getD_append _ _ _ _ hjlt]
    by_cases hk : (f s).1 = k
    · rw [hashSeriesAux_snoc]
      show alookup (bucketAdd (hashSeriesAux f ser 0 [] []).1 (f s).1
        ⟨ser.length, (f s).2⟩) k = _
      rw [hk, alookup_bucketAdd_self, ih, inputBucket_snoc, if_pos hk]
      cases hB : inputBucket f ser k with
      | nil => simp [hget]
      | cons b bs =>
        rw [hB] at hmap
        rw [if_neg (List.cons_ne_nil b bs), Option.getD_some,
          if_neg (show (b :: bs) ++ [ser.length] ≠ [] by simp),
          List.map_append, hmap]
        simp [hget]
    · rw [hashSeriesAux_snoc]
      show alookup (bucketAdd (hashSeriesAux f ser 0 [] []).1 (f s).1
        ⟨ser.length, (f s).2⟩) k = _
      have hne : k ≠ (f s).1 := fun hx => hk hx.symm
      rw [alookup_bucketAdd_ne _ _ _ _ hne, ih, inputBucket_snoc, if_neg hk,
        List.append_nil]
      by_cases hB : inputBucket f ser k = []
      · rw [if_pos hB, if_pos hB]
      · rw [if_neg hB, if_neg hB, hmap]

theorem totalLen_bucketAdd (m : List (Nat × List Series)) (k : Nat) (x : Series) :
    totalLen (bucketAdd m k x) = totalLen m + 1 := by
  induction m with
  | nil => simp [totalLen, bucketAdd]
  | cons kv rest ih =>
    obtain ⟨k2, xs⟩ := kv
    by_cases hk : k2 = k
    · rw [hk, bucketAdd_cons_self]
      simp [totalLen]
      omega
    · rw [bucketAdd_cons_ne k2 k hk]
      simp only [totalLen, List.map_cons, List.sum_cons] at ih ⊢
      omega

/-- `outputSize` counts every high-cardinality input series. -/
theorem totalLen_hashSeries (f : Labels → Nat × Labels) (ser : List Labels) :
    totalLen (hashSeriesAux f ser 0 [] []).1 = ser.length := by
  induction ser using List.reverseRecOn with
  | nil => rfl
  | append_singleton ser s ih =>
    rw [hashSeriesAux_snoc]
    show totalLen (bucketAdd _ _ _) = _
    rw [totalLen_bucketAdd, ih]
    simp

/-- Both maps built by `hashSeries` have pairwise-distinct keys. -/
theorem hashSeries_keysNodup (f : Labels → Nat × Labels) (ser : List Labels) :
    KeysNodup (hashSeriesAux f ser 0 [] []).1 ∧
    KeysNodup (hashSeriesAux f ser 0 [] []).2 := by
  induction ser using List.reverseRecOn with
  | nil => exact ⟨List.nodup_nil, List.nodup_nil⟩
  | append_singleton ser s ih =>
    rw [hashSeriesAux_snoc]
    exact ⟨keysNodup_bucketAdd _ _ _ ih.1, keysNodup_bucketAdd _ _ _ ih.2⟩

theorem mem_filter_of_keys {α : Type} (m : List (Nat × α)) (p : Nat × α → Bool)
    (k : Nat) (v : α) (hm : (k, v) ∈ m) (hp : p (k, v) = true) :
    (k, v) ∈ m.filter p :=
  List.mem_filter.mpr ⟨hm, hp⟩

/-! ## `joinBucket` lemmas -/

theorem joinBucket_nil (lowID : Nat) (hids : List Nat) (out : List Series)
    (hi : List (Option Nat)) (lo : List (List Nat)) :
    joinBucket lowID [] hids out hi lo = .ok (out, hi, lo) := rfl

theorem joinBucket_cons (lowID : Nat) (o : Series) (outs : List Series) (hid : Nat)
    (hids : List Nat) (out : List Series) (hi : List (Option Nat)) (lo : List (List Nat))
    (cur : List Nat) (hhid : hid < hi.length) (hcur : lo.get? lowID = some cur) :
    joinBucket lowID (o :: outs) (hid :: hids) out hi lo =
      joinBucket lowID outs hids (out ++ [⟨out.length, o.Metric⟩])
        (hi.set hid (some out.length)) (lo.set lowID (cur ++ [out.length])) := by
  have hlow : lowID < lo.length := by
    by_contra hc
    rw [List.get?_eq_none.mpr (Nat.le_of_not_lt hc)] at hcur
    exact Option.noConfusion hcur
  simp only [joinBucket, setAt, hcur, if_pos hhid, if_pos hlow]

theorem joinBucket_cons_inv (lowID : Nat) (o : Series) (outs : List Series)
    (hids0 : List Nat) (out : List Series) (hi : List (Option Nat))
    (lo : List (List Nat)) (res : List Series × List (Option Nat) × List (List Nat))
    (hok : joinBucket lowID (o :: outs) hids0 out hi lo = .ok res) :
    ∃ hid hids cur, hids0 = hid :: hids ∧ hid < hi.length ∧
      lo.get? lowID = some cur ∧
      joinBucket lowID outs hids (out ++ [⟨out.length, o.Metric⟩])
        (hi.set hid (some out.length)) (lo.set lowID (cur ++ [out.length])) = .ok res := by
  cases hids0 with
  | nil => exact absurd hok (by simp [joinBucket])
  | cons hid hids =>
    by_cases hhid : hid < hi.length
    · cases hq : lo.get? lowID with
      | none =>
        exfalso
        simp only [joinBucket, setAt] at hok
        rw [if_pos hhid, hq] at hok
        exact Except.noConfusion hok
      | some cur =>
        refine ⟨hid, hids, cur, rfl, hhid, rfl, ?_⟩
        rw [joinBucket_cons lowID o outs hid hids out hi lo cur hhid hq] at hok
        exact hok
    · exfalso
      simp only [joinBucket, setAt] at hok
      rw [if_neg hhid] at hok
      exact Except.noConfusion hok

/-- Everything `joinBucket` guarantees about a successful run (the inner loop
walks the bucket's series and the aligned input-id list in lockstep). -/
theorem joinBucket_spec (lowID : Nat) : ∀ (outs : List Series) (hids : List Nat)
    (out out2 : List Series) (hi hi2 : List (Option Nat)) (lo lo2 : List (List Nat)),
    hids.length = outs.length →
    joinBucket lowID outs hids out hi lo = .ok (out2, hi2, lo2) →
    (hi2.length = hi.length ∧ lo2.length = lo.length ∧
      out2.length = out.length + outs.length)
    ∧ (∃ t, out2 = out ++ t ∧ ∀ s2 ∈ t, ∃ o ∈ outs, s2.Metric = o.Metric)
    ∧ ((∀ j (hj : j < out.length), (out.get ⟨j, hj⟩).ID = j) →
        ∀ j (hj : j < out2.length), (out2.get ⟨j, hj⟩).ID = j)
    ∧ (∀ i, i ∉ hids → hi2.get? i = hi.get? i)
    ∧ (∀ i, i ∈ hids → ∃ id, hi2.get? i = some (some id))
    ∧ ((∀ i id, hi.get? i = some (some id) → id < out.length) →
        ∀ i id, hi2.get? i = some (some id) → id < out2.length)
    ∧ (∀ p, p ≠ lowID → lo2.get? p = lo.get? p)
    ∧ (∀ cur, lo.get? lowID = some cur →
        ∃ ids, lo2.get? lowID = some (cur ++ ids) ∧ ids.length = outs.length)
    ∧ ((∀ p l2, lo.get? p = some l2 → ∀ x ∈ l2, x < out.length) →
        ∀ p l2, lo2.get? p = some l2 → ∀ x ∈ l2, x < out2.length) := by
  intro outs
  induction outs with
  | nil =>
    intro hids out out2 hi hi2 lo lo2 hlen hok
    have hids0 : hids = [] := List.length_eq_zero.mp hlen
    subst hids0
    rw [joinBucket_nil] at hok
    injection hok with hok
    injection hok with h1 hok
    injection hok with h2 h3
    subst h1
    subst h2
    subst h3
    refine ⟨⟨rfl, rfl, rfl⟩, ⟨[], by simp, by simp⟩, fun hpre j hj => hpre j hj,
      fun i _ => rfl, fun i him => absurd him (List.not_mem_nil i), fun hb => hb,
      fun p _ => rfl,
      fun cur hcur => ⟨[], by rw [List.append_nil]; exact hcur, rfl⟩,
      fun hb => hb⟩
  | cons o outs ih =>
    intro hids0 out out2 hi hi2 lo lo2 hlen hok
    obtain ⟨hid, hids, cur, hh0, hhid, hcur, hrec⟩ :=
      joinBucket_cons_inv lowID o outs hids0 out hi lo _ hok
    subst hh0
    have hlen2 : hids.length = outs.length := by
      simp only [List.length_cons] at hlen
      omega
    obtain ⟨⟨ihL1, ihL2, ihL3⟩, ⟨t, ht, htm⟩, ihIDs, ihUn, ihWr, ihBnd, ihLoOth,
      ihLoSelf, ihLoBnd⟩ := ih hids (out ++ [⟨out.length, o.Metric⟩]) out2
        (hi.set hid (some out.length)) hi2 (lo.set lowID (cur ++ [out.length])) lo2
        hlen2 hrec
    have hlow : lowID < lo.length := by
      by_contra hc
      rw [List.get?_eq_none.mpr (Nat.le_of_not_lt hc)] at hcur
      exact Option.noConfusion hcur
    refine ⟨⟨by rw [ihL1, List.length_set], by rw [ihL2, List.length_set], ?_⟩,
      ?_, ?_, ?_, ?_, ?_, ?_, ?_, ?_⟩
    · rw [ihL3]
      simp
      omega
    · refine ⟨⟨out.length, o.Metric⟩ :: t, by simpa using ht, ?_⟩
      intro s2 hs2
      rcases List.mem_cons.mp hs2 with hx | hx
      · exact ⟨o, List.mem_cons_self _ _, by rw [hx]⟩
      · obtain ⟨o2, ho2, hm2⟩ := htm s2 hx
        exact ⟨o2, List.mem_cons_of_mem _ ho2, hm2⟩
    · intro hpre
      apply ihIDs
      intro j hj
      rcases Nat.lt_or_ge j out.length with hlt | hge
      · rw [List.get_append _ hlt]
        exact hpre j hlt
      · have hj2 : j = out.length := by
          have hjb := hj
          simp at hjb
          omega
        subst hj2
        have hgr : (out ++ [(⟨out.length, o.Metric⟩ : Series)]).get ⟨out.length, hj⟩ =
            (⟨out.length, o.Metric⟩ : Series) := by
          rw [List.get_append_right] <;> simp
        rw [hgr]
    · intro i hin
      have hne : i ∉ hids := fun hx => hin (List.mem_cons_of_mem _ hx)
      have hne2 : hid ≠ i := fun hx => hin (hx ▸ List.mem_cons_self _ _)
      rw [ihUn i hne, List.get?_set_ne _ _ hne2]
    · intro i hin
      rcases List.mem_cons.mp hin with hx | hx
      · subst hx
        by_cases hmem : i ∈ hids
        · exact ihWr i hmem
        · refine ⟨out.length, ?_⟩
          rw [ihUn i hmem, List.get?_set_eq_of_lt _ hhid]
      · exact ihWr i hx
    · intro hbnd
      apply ihBnd
      intro i id hq
      by_cases hx : hid = i
      · subst hx
        rw [List.get?_set_eq_of_lt _ hhid] at hq
        injection hq with hq
        injection hq with hq
        simp [← hq]
      · rw [List.get?_set_ne _ _ hx] at hq
        have hlt := hbnd i id hq
        simp
        omega
    · intro p hp
      rw [ihLoOth p hp, List.get?_set_ne _ _ (fun hx => hp hx.symm)]
    · intro cur2 hcur2
      have hcc : cur2 = cur := by
        rw [hcur] at hcur2
        injection hcur2 with hcc
        exact hcc.symm
      subst hcc
      obtain ⟨ids, hq, hlen3⟩ := ihLoSelf (cur2 ++ [out.length])
        (by rw [List.get?_set_eq_of_lt _ hlow])
      refine ⟨out.length :: ids, ?_, by simp [hlen3]⟩
      rw [hq, List.append_assoc]
      rfl
    · intro hbnd
      apply ihLoBnd
      intro p l2 hq x hx
      by_cases hpp : lowID = p
      · subst hpp
        rw [List.get?_set_eq_of_lt _ hlow] at hq
        injection hq with hq
        subst hq
        rcases List.mem_append.mp hx with hy | hy
        · have hlt := hbnd lowID cur hcur x hy
          simp
          omega
        · rw [List.mem_singleton.mp hy]
          simp
      · rw [List.get?_set_ne _ _ hpp] at hq
        have hlt := hbnd p l2 hq x hx
        simp
        omega

/-! ## `joinLoop` lemmas -/

theorem setAt_ok {α : Type} (l : List α) (i : Nat) (x : α) (l2 : List α)
    (h : setAt l i x = some l2) : i < l.length ∧ l2 = l.set i x := by
  unfold setAt at h
  by_cases hlt : i < l.length
  · rw [if_pos hlt] at h
    injection h with h
    exact ⟨hlt, h.symm⟩
  · rw [if_neg hlt] at h
    exact Option.noConfusion h

theorem joinLoop_nil (lowInput highInput : List (Nat × List Nat)) (out : List Series)
    (hi : List (Option Nat)) (lo : List (List Nat)) :
    joinLoop lowInput highInput [] out hi lo = .ok (out, hi, lo) := rfl

theorem joinLoop_cons_inv (lowInput highInput : List (Nat × List Nat)) (k : Nat)
    (outs : List Series) (rest : List (Nat × List Series)) (out : List Series)
    (hi : List (Option Nat)) (lo : List (List Nat))
    (res : List Series × List (Option Nat) × List (List Nat))
    (hok : joinLoop lowInput highInput ((k, outs) :: rest) out hi lo = .ok res) :
    ∃ lowID lowRest out2 hi2 lo2,
      (alookup lowInput k).getD [] = lowID :: lowRest ∧
      lowID < lo.length ∧
      joinBucket lowID outs ((alookup highInput k).getD []) out hi
        (lo.set lowID []) = .ok (out2, hi2, lo2) ∧
      joinLoop lowInput highInput rest out2 hi2 lo2 = .ok res := by
  unfold joinLoop at hok
  split at hok
  · exact absurd hok (by simp)
  next lowID lowRest heq =>
    split at hok
    · exact absurd hok (by simp)
    next lo1 heq2 =>
      split at hok
      · exact absurd hok (by simp)
      next out2 hi2 lo2 heq3 =>
        obtain ⟨hlt, hlo1⟩ := setAt_ok lo lowID [] lo1 heq2
        subst hlo1
        exact ⟨lowID, lowRest, out2, hi2, lo2, heq, hlt, heq3, hok⟩

/-- Everything `joinLoop` guarantees about a successful run, given that each
bucket's series list is aligned with its input-id list. -/
theorem joinLoop_spec (lowInput highInput : List (Nat × List Nat)) :
    ∀ (buckets : List (Nat × List Series)) (out out2 : List Series)
      (hi hi2 : List (Option Nat)) (lo lo2 : List (List Nat)),
    (∀ b ∈ buckets, ((alookup highInput b.1).getD []).length = b.2.length) →
    joinLoop lowInput highInput buckets out hi lo = .ok (out2, hi2, lo2) →
    (hi2.length = hi.length ∧ lo2.length = lo.length)
    ∧ (∃ t, out2 = out ++ t ∧ ∀ s2 ∈ t, ∃ b ∈ buckets, ∃ o ∈ b.2, s2.Metric = o.Metric)
    ∧ ((∀ j (hj : j < out.length), (out.get ⟨j, hj⟩).ID = j) →
        ∀ j (hj : j < out2.length), (out2.get ⟨j, hj⟩).ID = j)
    ∧ (∀ i, (∀ b ∈ buckets, i ∉ (alookup highInput b.1).getD []) →
        hi2.get? i = hi.get? i)
    ∧ (∀ i v, hi.get? i = some (some v) → ∃ w, hi2.get? i = some (some w))
    ∧ (∀ i, (∃ b ∈ buckets, i ∈ (alookup highInput b.1).getD []) →
        ∃ id, hi2.get? i = some (some id))
    ∧ ((∀ i id, hi.get? i = some (some id) → id < out.length) →
        ∀ i id, hi2.get? i = some (some id) → id < out2.length)
    ∧ (∀ p, (∀ b ∈ buckets, ∀ lowID r2,
          (alookup lowInput b.1).getD [] = lowID :: r2 → lowID ≠ p) →
        lo2.get? p = lo.get? p)
    ∧ ((∀ p l2, lo.get? p = some l2 → ∀ x ∈ l2, x < out.length) →
        ∀ p l2, lo2.get? p = some l2 → ∀ x ∈ l2, x < out2.length) := by
  intro buckets
  induction buckets with
  | nil =>
    intro out out2 hi hi2 lo lo2 hblen hok
    rw [joinLoop_nil] at hok
    injection hok with hok
    injection hok with h1 hok
    injection hok with h2 h3
    subst h1
    subst h2
    subst h3
    refine ⟨⟨rfl, rfl⟩, ⟨[], by simp, by simp⟩, fun hpre j hj => hpre j hj,
      fun i _ => rfl, fun i v hv => ⟨v, hv⟩,
      fun i hmem => absurd hmem (by simp), fun hb => hb,
      fun p _ => rfl, fun hb => hb⟩
  | cons b0 rest ih =>
    obtain ⟨k, outs⟩ := b0
    intro out out2 hi hi2 lo lo2 hblen hok
    obtain ⟨lowID, lowRest, outm, him, lom, heqLow, hlt, hjb, hloop⟩ :=
      joinLoop_cons_inv lowInput highInput k outs rest out hi lo _ hok
    have hlenHead : ((alookup highInput k).getD []).length = outs.length :=
      hblen (k, outs) (List.mem_cons_self _ _)
    obtain ⟨⟨jbL1, jbL2, jbL3⟩, ⟨t1, ht1, ht1m⟩, jbIDs, jbUn, jbWr, jbBnd, jbLoOth,
      jbLoSelf, jbLoBnd⟩ := joinBucket_spec lowID outs ((alookup highInput k).getD [])
        out outm hi him (lo.set lowID []) lom hlenHead hjb
    obtain ⟨⟨ihL1, ihL2⟩, ⟨t2, ht2, ht2m⟩, ihIDs, ihUn, ihSome, ihWr, ihBnd, ihLoOth,
      ihLoBnd⟩ := ih outm out2 him hi2 lom lo2
        (fun b hb => hblen b (List.mem_cons_of_mem _ hb)) hloop
    have jbSome : ∀ i v, hi.get? i = some (some v) → ∃ w, him.get? i = some (some w) := by
      intro i v hv
      by_cases hmem : i ∈ (alookup highInput k).getD []
      · exact jbWr i hmem
      · exact ⟨v, by rw [jbUn i hmem]; exact hv⟩
    refine ⟨⟨by rw [ihL1, jbL1], by rw [ihL2, jbL2, List.length_set]⟩, ?_, ?_, ?_,
      ?_, ?_, ?_, ?_, ?_⟩
    · refine ⟨t1 ++ t2, by rw [ht2, ht1, List.append_assoc], ?_⟩
      intro s2 hs2
      rcases List.mem_append.mp hs2 with hx | hx
      · obtain ⟨o, ho, hom⟩ := ht1m s2 hx
        exact ⟨(k, outs), List.mem_cons_self _ _, o, ho, hom⟩
      · obtain ⟨b, hb, o, ho, hom⟩ := ht2m s2 hx
        exact ⟨b, List.mem_cons_of_mem _ hb, o, ho, hom⟩
    · intro hpre
      exact ihIDs (jbIDs hpre)
    · intro i hiun
      rw [ihUn i (fun b hb => hiun b (List.mem_cons_of_mem _ hb)),
        jbUn i (hiun (k, outs) (List.mem_cons_self _ _))]
    · intro i v hv
      obtain ⟨w, hw⟩ := jbSome i v hv
      exact ihSome i w hw
    · intro i hmem
      obtain ⟨b, hb, hbm⟩ := hmem
      rcases List.mem_cons.mp hb with hx | hx
      · subst hx
        obtain ⟨id, hid⟩ := jbWr i hbm
        exact ihSome i id hid
      · exact ihWr i ⟨b, hx, hbm⟩
    · intro hbnd
      exact ihBnd (jbBnd hbnd)
    · intro p hpun
      have hheadne : lowID ≠ p :=
        hpun (k, outs) (List.mem_cons_self _ _) lowID lowRest heqLow
      rw [ihLoOth p (fun b hb => hpun b (List.mem_cons_of_mem _ hb)),
        jbLoOth p (fun hx => hheadne hx.symm), List.get?_set_ne _ _ hheadne]
    · intro hbnd
      apply ihLoBnd
      apply jbLoBnd
      intro p l2 hq x hx
      by_cases hpp : lowID = p
      · subst hpp
        rw [List.get?_set_eq_of_lt _ hlt] at hq
        injection hq with hq
        subst hq
        exact absurd hx (List.not_mem_nil x)
      · rw [List.get?_set_ne _ _ hpp] at hq
        exact hbnd p l2 hq x hx

/-- The inner loop succeeds when the id list is aligned and all writes are in
bounds. -/
theorem joinBucket_ok (lowID : Nat) : ∀ (outs : List Series) (hids : List Nat)
    (out : List Series) (hi : List (Option Nat)) (lo : List (List Nat)),
    hids.length = outs.length → (∀ i ∈ hids, i < hi.length) → lowID < lo.length →
    ∃ out2 hi2 lo2, joinBucket lowID outs hids out hi lo = .ok (out2, hi2, lo2) := by
  intro outs
  induction outs with
  | nil =>
    intro hids out hi lo _ _ _
    exact ⟨out, hi, lo, joinBucket_nil lowID hids out hi lo⟩
  | cons o outs ih =>
    intro hids out hi lo hlen hin hlow
    cases hids with
    | nil => simp at hlen
    | cons hid hids =>
      obtain ⟨cur, hcur⟩ : ∃ cur, lo.get? lowID = some cur := by
        cases hq : lo.get? lowID with
        | none => exact absurd (List.get?_eq_none.mp hq) (Nat.not_le.mpr hlow)
        | some cur => exact ⟨cur, rfl⟩
      rw [joinBucket_cons lowID o outs hid hids out hi lo cur
        (hin hid (List.mem_cons_self _ _)) hcur]
      apply ih
      · simpa using hlen
      · intro i him
        rw [List.length_set]
        exact hin i (List.mem_cons_of_mem _ him)
      · rw [List.length_set]
        exact hlow

/-- The outer loop succeeds when every bucket has a non-empty low-cardinality
input list whose head (the partner) is in bounds, an aligned high-cardinality
id list, and in-bounds high-cardinality ids. -/
theorem joinLoop_ok (lowInput highInput : List (Nat × List Nat)) :
    ∀ (buckets : List (Nat × List Series)) (out : List Series)
      (hi : List (Option Nat)) (lo : List (List Nat)),
    (∀ b ∈ buckets, ((alookup highInput b.1).getD []).length = b.2.length) →
    (∀ b ∈ buckets, ∀ i ∈ (alookup highInput b.1).getD [], i < hi.length) →
    (∀ b ∈ buckets, ∃ lowID r2,
      (alookup lowInput b.1).getD [] = lowID :: r2 ∧ lowID < lo.length) →
    ∃ out2 hi2 lo2,
      joinLoop lowInput highInput buckets out hi lo = .ok (out2, hi2, lo2) := by
  intro buckets
  induction buckets with
  | nil =>
    intro out hi lo _ _ _
    exact ⟨out, hi, lo, joinLoop_nil lowInput highInput out hi lo⟩
  | cons b0 rest ih =>
    obtain ⟨k, outs⟩ := b0
    intro out hi lo hblen hbhi hblo
    obtain ⟨lowID, r2, heqLow, hlowlt⟩ := hblo (k, outs) (List.mem_cons_self _ _)
    obtain ⟨outm, him, lom, hjb⟩ :=
      joinBucket_ok lowID outs ((alookup highInput k).getD []) out hi
        (lo.set lowID []) (hblen (k, outs) (List.mem_cons_self _ _))
        (fun i him2 => hbhi (k, outs) (List.mem_cons_self _ _) i him2)
        (by rw [List.length_set]; exact hlowlt)
    obtain ⟨⟨jbL1, jbL2, -⟩, -, -, -, -, -, -, -, -⟩ :=
      joinBucket_spec lowID outs ((alookup highInput k).getD []) out outm hi him
        (lo.set lowID []) lom (hblen (k, outs) (List.mem_cons_self _ _)) hjb
    have hlom : lom.length = lo.length := by rw [jbL2, List.length_set]
    obtain ⟨out2, hi2, lo2, hloop⟩ := ih outm him lom
      (fun b hb => hblen b (List.mem_cons_of_mem _ hb))
      (fun b hb i him2 => jbL1 ▸ hbhi b (List.mem_cons_of_mem _ hb) i him2)
      (fun b hb => by
        obtain ⟨lowID2, r3, heq3, hlt3⟩ := hblo b (List.mem_cons_of_mem _ hb)
        exact ⟨lowID2, r3, heq3, hlom ▸ hlt3⟩)
    refine ⟨out2, hi2, lo2, ?_⟩
    unfold joinLoop
    rw [heqLow]
    have hsetAt : setAt lo lowID [] = some (lo.set lowID []) := by
      unfold setAt
      rw [if_pos hlowlt]
    show (match setAt lo lowID [] with
          | none => (Except.error EngineError.lowIndexOOB :
              Except EngineError (List Series × List (Option Nat) × List (List Nat)))
          | some lo1 =>
            match joinBucket lowID outs ((alookup highInput k).getD []) out hi lo1 with
            | .error e => .error e
            | .ok (out3, hi3, lo3) => joinLoop lowInput highInput rest out3 hi3 lo3) = _
    rw [hsetAt]
    show (match joinBucket lowID outs ((alookup highInput k).getD []) out hi
            (lo.set lowID []) with
          | .error e => (Except.error e :
              Except EngineError (List Series × List (Option Nat) × List (List Nat)))
          | .ok (out3, hi3, lo3) => joinLoop lowInput highInput rest out3 hi3 lo3) = _
    rw [hjb]
    exact hloop

/-- After a successful loop, the partner of a processed bucket holds one
output id per high-cardinality series of the bucket — provided no other
bucket shares that partner. -/
theorem joinLoop_partner (lowInput highInput : List (Nat × List Nat)) :
    ∀ (buckets : List (Nat × List Series)) (out : List Series)
      (hi : List (Option Nat)) (lo : List (List Nat))
      (out2 : List Series) (hi2 : List (Option Nat)) (lo2 : List (List Nat))
      (k : Nat) (outs : List Series) (lowID : Nat) (lowRest : List Nat),
    joinLoop lowInput highInput buckets out hi lo = .ok (out2, hi2, lo2) →
    (∀ b ∈ buckets, ((alookup highInput b.1).getD []).length = b.2.length) →
    KeysNodup buckets →
    (k, outs) ∈ buckets →
    (alookup lowInput k).getD [] = lowID :: lowRest →
    (∀ b ∈ buckets, ∀ lowID2 r2, (alookup lowInput b.1).getD [] = lowID2 :: r2 →
      b.1 ≠ k → lowID2 ≠ lowID) →
    ∃ ids, lo2.get? lowID = some ids ∧ ids.length = outs.length := by
  intro buckets
  induction buckets with
  | nil =>
    intro out hi lo out2 hi2 lo2 k outs lowID lowRest _ _ _ hmem _ _
    exact absurd hmem (List.not_mem_nil _)
  | cons b0 rest ih =>
    obtain ⟨k1, outs1⟩ := b0
    intro out hi lo out2 hi2 lo2 k outs lowID lowRest hok hblen hnd hmem heqLow hdist
    obtain ⟨lowID1, lowRest1, outm, him, lom, heqLow1, hlt1, hjb, hloop⟩ :=
      joinLoop_cons_inv lowInput highInput k1 outs1 rest out hi lo _ hok
    have hndTail : KeysNodup rest := by
      unfold KeysNodup at hnd ⊢
      rw [List.map_cons, List.nodup_cons] at hnd
      exact hnd.2
    have hk1notin : k1 ∉ rest.map Prod.fst := by
      unfold KeysNodup at hnd
      rw [List.map_cons, List.nodup_cons] at hnd
      exact hnd.1
    rcases List.mem_cons.mp hmem with hx | hx
    · injection hx with hk houts
      subst hk
      subst houts
      have hlow1 : lowID1 = lowID ∧ lowRest1 = lowRest := by
        rw [heqLow] at heqLow1
        injection heqLow1 with h1 h2
        exact ⟨h1.symm, h2.symm⟩
      obtain ⟨hl1, -⟩ := hlow1
      subst hl1
      obtain ⟨-, -, -, -, -, -, -, jbLoSelf, -⟩ :=
        joinBucket_spec lowID1 outs ((alookup highInput k).getD []) out outm hi him
          (lo.set lowID1 []) lom (hblen (k, outs) (List.mem_cons_self _ _)) hjb
      obtain ⟨ids, hq, hlen⟩ := jbLoSelf []
        (by rw [List.get?_set_eq_of_lt _ hlt1])
      obtain ⟨-, -, -, -, -, -, -, ihLoOth, -⟩ :=
        joinLoop_spec lowInput highInput rest outm out2 him hi2 lom lo2
          (fun b hb => hblen b (List.mem_cons_of_mem _ hb)) hloop
      have hun : lo2.get? lowID1 = lom.get? lowID1 := by
        apply ihLoOth
        intro b hb lowID2 r3 heq3
        have hbk : b.1 ≠ k := by
          intro hc
          exact hk1notin (hc ▸ List.mem_map.mpr ⟨b, hb, rfl⟩)
        exact hdist b (List.mem_cons_of_mem _ hb) lowID2 r3 heq3 hbk
      refine ⟨ids, ?_, hlen⟩
      rw [hun, hq, List.nil_append]
    · exact ih outm him lom out2 hi2 lo2 k outs lowID lowRest hloop
        (fun b hb => hblen b (List.mem_cons_of_mem _ hb)) hndTail hx heqLow
        (fun b hb lowID2 r3 heq3 hbk =>
          hdist b (List.mem_cons_of_mem _ hb) lowID2 r3 heq3 hbk)

/-! ## Top-level glue: `join` and `initOutputs` facts -/

/-- `join` is the loop over the pruned buckets with both indices allocated at
`outputSize`. -/
theorem join_eq (highHashes : List (Nat × List Series))
    (highInput lowInput : List (Nat × List Nat)) (lowHashes : List (Nat × List Series)) :
    join highHashes highInput lowHashes lowInput =
      joinLoop lowInput highInput
        (highHashes.filter (fun kv => (alookup lowHashes kv.1).isSome)) []
        (List.replicate (totalLen highHashes) none)
        (List.replicate (totalLen highHashes) []) := rfl

theorem get?_replicate_lt {α : Type} (a : α) (n m : Nat) (h : m < n) :
    (List.replicate n a).get? m = some a := by
  rw [List.get?_eq_getElem?, List.getElem?_replicate]
  simp [h]

/-- The join key does not depend on `keepLabels`. -/
theorem signature_key_keep (h : Labels → Nat) (s : Labels) (without : Bool)
    (grouping : List String) (keep1 keep2 : Bool) :
    (signature h s without grouping keep1).1 = (signature h s without grouping keep2).1 := by
  unfold signature
  cases without
  · by_cases hg : grouping = [] <;> simp [hg]
  · simp

theorem inputBucket_keep (h : Labels → Nat) (mOn : Bool) (grouping : List String)
    (ser : List Labels) (k : Nat) (keep1 keep2 : Bool) :
    inputBucket (fun s => signature h s (!mOn) grouping keep1) ser k =
      inputBucket (fun s => signature h s (!mOn) grouping keep2) ser k := by
  unfold inputBucket
  apply List.filter_congr
  intro j _
  rw [signature_key_keep h (ser.getD j []) (!mOn) grouping keep1 keep2]

/-- `hashSeries` characterization, restated over the wrapper. -/
theorem hashSeries_hash_lookup2 (h : Labels → Nat) (mOn : Bool) (grouping : List String)
    (keep : Bool) (ser : List Labels) (k : Nat) :
    alookup (hashSeries h mOn grouping keep ser).1 k =
      if inputBucket (fun s => signature h s (!mOn) grouping keep) ser k = [] then none
      else some ((inputBucket (fun s => signature h s (!mOn) grouping keep) ser k).map
        (fun j => ⟨j, (signature h (ser.getD j []) (!mOn) grouping keep).2⟩)) :=
  hashSeries_hash_lookup (fun s => signature h s (!mOn) grouping keep) ser k

theorem hashSeries_input_lookup2 (h : Labels → Nat) (mOn : Bool) (grouping : List String)
    (keep : Bool) (ser : List Labels) (k : Nat) :
    alookup (hashSeries h mOn grouping keep ser).2 k =
      if inputBucket (fun s => signature h s (!mOn) grouping keep) ser k = [] then none
      else some (inputBucket (fun s => signature h s (!mOn) grouping keep) ser k) :=
  hashSeries_input_lookup (fun s => signature h s (!mOn) grouping keep) ser k

theorem hashSeries_keysNodup2 (h : Labels → Nat) (mOn : Bool) (grouping : List String)
    (keep : Bool) (ser : List Labels) :
    KeysNodup (hashSeries h mOn grouping keep ser).1 ∧
    KeysNodup (hashSeries h mOn grouping keep ser).2 :=
  hashSeries_keysNodup (fun s => signature h s (!mOn) grouping keep) ser

theorem totalLen_hashSeries2 (h : Labels → Nat) (mOn : Bool) (grouping : List String)
    (keep : Bool) (ser : List Labels) :
    totalLen (hashSeries h mOn grouping keep ser).1 = ser.length :=
  totalLen_hashSeries (fun s => signature h s (!mOn) grouping keep) ser

/-- What membership in the pruned bucket list gives: the bucket's series list
is the mapped input bucket, the id list is aligned, and the low-cardinality
side has a matching partner. -/
theorem pruned_bucket_facts (h : Labels → Nat) (mOn : Bool) (grouping : List String)
    (highSide lowSide : List Labels) (k : Nat) (outs : List Series)
    (hmem : (k, outs) ∈ (hashSeries h mOn grouping true highSide).1.filter
        (fun kv => (alookup (hashSeries h mOn grouping false lowSide).1 kv.1).isSome)) :
    outs = (inputBucket (fun s => signature h s (!mOn) grouping true) highSide k).map
        (fun j => ⟨j, (signature h (highSide.getD j []) (!mOn) grouping true).2⟩)
    ∧ (alookup (hashSeries h mOn grouping true highSide).2 k).getD [] =
        inputBucket (fun s => signature h s (!mOn) grouping true) highSide k
    ∧ inputBucket (fun s => signature h s (!mOn) grouping true) highSide k ≠ []
    ∧ ∃ p lr, (alookup (hashSeries h mOn grouping false lowSide).2 k).getD [] = p :: lr
        ∧ p < lowSide.length
        ∧ (signature h (lowSide.getD p []) (!mOn) grouping false).1 = k := by
  obtain ⟨hmem1, hpred⟩ := List.mem_filter.mp hmem
  have halk : alookup (hashSeries h mOn grouping true highSide).1 k = some outs :=
    mem_alookup_of_nodup _ k outs
      (hashSeries_keysNodup2 h mOn grouping true highSide).1 hmem1
  rw [hashSeries_hash_lookup2] at halk
  have hIBne : inputBucket (fun s => signature h s (!mOn) grouping true) highSide k ≠ [] := by
    intro hc
    rw [if_pos hc] at halk
    exact Option.noConfusion halk
  rw [if_neg hIBne] at halk
  injection halk with halk
  have houts : outs = (inputBucket (fun s => signature h s (!mOn) grouping true)
      highSide k).map (fun j => ⟨j, (signature h (highSide.getD j []) (!mOn) grouping true).2⟩) :=
    halk.symm
  have hIn : (alookup (hashSeries h mOn grouping true highSide).2 k).getD [] =
      inputBucket (fun s => signature h s (!mOn) grouping true) highSide k := by
    rw [hashSeries_input_lookup2, if_neg hIBne]
    rfl
  have hLBne : inputBucket (fun s => signature h s (!mOn) grouping false) lowSide k ≠ [] := by
    intro hc
    rw [hashSeries_hash_lookup2, if_pos hc] at hpred
    exact Bool.noConfusion hpred
  have hLIn : (alookup (hashSeries h mOn grouping false lowSide).2 k).getD [] =
      inputBucket (fun s => signature h s (!mOn) grouping false) lowSide k := by
    rw [hashSeries_input_lookup2, if_neg hLBne]
    rfl
  refine ⟨houts, hIn, hIBne, ?_⟩
  cases hLB : inputBucket (fun s => signature h s (!mOn) grouping false) lowSide k with
  | nil => exact absurd hLB hLBne
  | cons p lr =>
    have hp := (inputBucket_mem (fun s => signature h s (!mOn) grouping false)
      lowSide k p).mp (hLB ▸ List.mem_cons_self p lr)
    exact ⟨p, lr, by rw [hLIn, hLB], hp.1, hp.2⟩

theorem take_succ_set {α : Type} : ∀ (l : List α) (k : Nat) (x : α), k < l.length →
    (l.set k x).take (k + 1) = l.take k ++ [x]
  | [], k, x, hx => absurd hx (by simp)
  | a :: l, 0, x, _ => by simp
  | a :: l, k + 1, x, hx => by
    show a :: (l.set k x).take (k + 1) = a :: (l.take k ++ [x])
    rw [take_succ_set l k x (by simpa using hx)]

/-- The write loop `series[s.ID] = s.Metric` fills the slice completely when
the ids are dense from `k`. -/
theorem writeSeries_spec : ∀ (out : List Series) (k : Nat) (acc : List Labels),
    acc.length = k + out.length →
    (∀ j (hj : j < out.length), (out.get ⟨j, hj⟩).ID = k + j) →
    writeSeries acc out = some (acc.take k ++ out.map (fun s => s.Metric)) := by
  intro out
  induction out with
  | nil =>
    intro k acc hlen _
    have hlen0 : acc.length = k := by simpa using hlen
    show some acc = _
    rw [List.take_all_of_le (le_of_eq hlen0), List.map_nil, List.append_nil]
  | cons s rest ih =>
    intro k acc hlen hids
    have hid0 : s.ID = k := by
      have h0 := hids 0 (by simp)
      simpa using h0
    have hklt : k < acc.length := by
      simp only [List.length_cons] at hlen
      omega
    show (match setAt acc s.ID s.Metric with
          | none => none
          | some acc2 => writeSeries acc2 rest) = _
    unfold setAt
    rw [hid0, if_pos hklt]
    have hrec := ih (k + 1) (acc.set k s.Metric)
      (by rw [List.length_set]; simp only [List.length_cons] at hlen; omega)
      (fun j hj => by
        have hj1 : j + 1 < (s :: rest).length := by simpa using Nat.succ_lt_succ hj
        have hg := hids (j + 1) hj1
        have hgr : ((s :: rest).get ⟨j + 1, hj1⟩) = rest.get ⟨j, hj⟩ := rfl
        rw [hgr] at hg
        rw [hg]
        omega)
    show writeSeries (acc.set k s.Metric) rest = _
    rw [hrec, take_succ_set acc k s.Metric hklt]
    rw [List.map_cons, List.append_assoc]
    rfl

theorem two_le_length_of_mem {α : Type} (l : List α) (a b : α)
    (ha : a ∈ l) (hb : b ∈ l) (hab : a ≠ b) : 2 ≤ l.length := by
  cases l with
  | nil => exact absurd ha (List.not_mem_nil a)
  | cons x rest =>
    cases rest with
    | nil =>
      rw [List.mem_singleton] at ha hb
      exact absurd (ha.trans hb.symm) hab
    | cons y rest2 =>
      simp only [List.length_cons]
      omega

/-! ## Claim C8 -/

/-- Claim C8: after `join` succeeds, output ids are exactly `0..n-1` in
emission order; the `series` slice built in `initOutputs` is filled at every
index with the corresponding output metric; both array-backed indices have
only valid output ids; and `highCardOutputIndex[i]` is `nil` exactly when no
low-cardinality series shares the join signature of high-cardinality input
series `i`. -/
theorem C8_join_index_invariants (h : Labels → Nat) (mOn : Bool) (grouping : List String)
    (highSide lowSide : List Labels) (out : List Series) (hi : List (Option Nat))
    (lo : List (List Nat))
    (hok : join (hashSeries h mOn grouping true highSide).1
        (hashSeries h mOn grouping true highSide).2
        (hashSeries h mOn grouping false lowSide).1
        (hashSeries h mOn grouping false lowSide).2 = .ok (out, hi, lo)) :
    (∀ j (hj : j < out.length), (out.get ⟨j, hj⟩).ID = j)
    ∧ writeSeries (List.replicate out.length []) out =
        some (out.map (fun s => s.Metric))
    ∧ hi.length = highSide.length
    ∧ (∀ i id, hi.get? i = some (some id) → id < out.length)
    ∧ (∀ i l2, lo.get? i = some l2 → ∀ x ∈ l2, x < out.length)
    ∧ (∀ i, i < highSide.length →
        (hi.get? i = some none ↔
          ¬ ∃ j2, j2 < lowSide.length ∧
            (signature h (lowSide.getD j2 []) (!mOn) grouping false).1 =
            (signature h (highSide.getD i []) (!mOn) grouping true).1)) := by
  rw [join_eq] at hok
  have hblen : ∀ b ∈ (hashSeries h mOn grouping true highSide).1.filter
      (fun kv => (alookup (hashSeries h mOn grouping false lowSide).1 kv.1).isSome),
      ((alookup (hashSeries h mOn grouping true highSide).2 b.1).getD []).length =
        b.2.length := by
    intro b hb
    obtain ⟨k, outs⟩ := b
    obtain ⟨houts, hIn, -, -⟩ :=
      pruned_bucket_facts h mOn grouping highSide lowSide k outs hb
    rw [hIn, houts, List.length_map]
  obtain ⟨⟨hL1, -⟩, -, hIDs, hUn, -, hWr, hBnd, -, hLoBnd⟩ :=
    joinLoop_spec (hashSeries h mOn grouping false lowSide).2
      (hashSeries h mOn grouping true highSide).2 _ [] out
      (List.replicate (totalLen (hashSeries h mOn grouping true highSide).1) none) hi
      (List.replicate (totalLen (hashSeries h mOn grouping true highSide).1) []) lo
      hblen hok
  have hNlen : totalLen (hashSeries h mOn grouping true highSide).1 = highSide.length :=
    totalLen_hashSeries2 h mOn grouping true highSide
  have hids : ∀ j (hj : j < out.length), (out.get ⟨j, hj⟩).ID = j :=
    hIDs (fun j hj => absurd hj (by simp))
  refine ⟨hids, ?_, ?_, ?_, ?_, ?_⟩
  · have hws := writeSeries_spec out 0 (List.replicate out.length []) (by simp)
      (fun j hj => by rw [Nat.zero_add]; exact hids j hj)
    simpa using hws
  · rw [hL1, List.length_replicate, hNlen]
  · apply hBnd
    intro i id hq
    exfalso
    by_cases hlt : i < totalLen (hashSeries h mOn grouping true highSide).1
    · rw [get?_replicate_lt _ _ _ hlt] at hq
      injection hq with hq
      exact Option.noConfusion hq
    · rw [List.get?_eq_none.mpr (by rw [List.length_replicate]; omega)] at hq
      exact Option.noConfusion hq
  · apply hLoBnd
    intro p l2 hq x hx
    exfalso
    by_cases hlt : p < totalLen (hashSeries h mOn grouping true highSide).1
    · rw [get?_replicate_lt _ _ _ hlt] at hq
      injection hq with hq
      subst hq
      exact absurd hx (List.not_mem_nil x)
    · rw [List.get?_eq_none.mpr (by rw [List.length_replicate]; omega)] at hq
      exact Option.noConfusion hq
  · intro i hilt
    constructor
    · intro hnone hmatch
      obtain ⟨j2, hj2, hkey⟩ := hmatch
      have hiin : i ∈ inputBucket (fun s => signature h s (!mOn) grouping true) highSide
          ((signature h (highSide.getD i []) (!mOn) grouping true).1) :=
        (inputBucket_mem _ _ _ _).mpr ⟨hilt, rfl⟩
      have hIBne : inputBucket (fun s => signature h s (!mOn) grouping true) highSide
          ((signature h (highSide.getD i []) (!mOn) grouping true).1) ≠ [] := by
        intro hc
        rw [hc] at hiin
        exact absurd hiin (List.not_mem_nil i)
      have hj2in : j2 ∈ inputBucket (fun s => signature h s (!mOn) grouping false) lowSide
          ((signature h (highSide.getD i []) (!mOn) grouping true).1) :=
        (inputBucket_mem _ _ _ _).mpr ⟨hj2, hkey⟩
      have hLBne : inputBucket (fun s => signature h s (!mOn) grouping false) lowSide
          ((signature h (highSide.getD i []) (!mOn) grouping true).1) ≠ [] := by
        intro hc
        rw [hc] at hj2in
        exact absurd hj2in (List.not_mem_nil j2)
      have halk : alookup (hashSeries h mOn grouping true highSide).1
          ((signature h (highSide.getD i []) (!mOn) grouping true).1) =
          some ((inputBucket (fun s => signature h s (!mOn) grouping true) highSide
            ((signature h (highSide.getD i []) (!mOn) grouping true).1)).map
            (fun j3 => ⟨j3, (signature h (highSide.getD j3 []) (!mOn) grouping true).2⟩)) := by
        rw [hashSeries_hash_lookup2, if_neg hIBne]
      have hpred : (alookup (hashSeries h mOn grouping false lowSide).1
          ((signature h (highSide.getD i []) (!mOn) grouping true).1)).isSome = true := by
        rw [hashSeries_hash_lookup2, if_neg hLBne]
        rfl
      have hmemP : ((signature h (highSide.getD i []) (!mOn) grouping true).1,
          (inputBucket (fun s => signature h s (!mOn) grouping true) highSide
            ((signature h (highSide.getD i []) (!mOn) grouping true).1)).map
            (fun j3 => ⟨j3, (signature h (highSide.getD j3 []) (!mOn) grouping true).2⟩)) ∈
          (hashSeries h mOn grouping true highSide).1.filter
            (fun kv => (alookup (hashSeries h mOn grouping false lowSide).1 kv.1).isSome) :=
        List.mem_filter.mpr ⟨alookup_mem _ _ _ halk, hpred⟩
      have hhids : i ∈ (alookup (hashSeries h mOn grouping true highSide).2
          ((signature h (highSide.getD i []) (!mOn) grouping true).1)).getD [] := by
        rw [hashSeries_input_lookup2, if_neg hIBne]
        exact hiin
      obtain ⟨id, hid⟩ := hWr i ⟨_, hmemP, hhids⟩
      rw [hnone] at hid
      injection hid with hid
      exact Option.noConfusion hid
    · intro hnomatch
      have hun : hi.get? i =
          (List.replicate (totalLen (hashSeries h mOn grouping true highSide).1)
            (none : Option Nat)).get? i := by
        apply hUn
        intro b hb hbin
        obtain ⟨k, outs⟩ := b
        obtain ⟨-, hIn, -, p, lr, hplr, hplt, hpkey⟩ :=
          pruned_bucket_facts h mOn grouping highSide lowSide k outs hb
        rw [hIn] at hbin
        have hkeyi := ((inputBucket_mem _ _ _ _).mp hbin).2
        exact hnomatch ⟨p, hplt, by rw [hpkey, ← hkeyi]⟩
      rw [hun, get?_replicate_lt _ _ _ (by rw [hNlen]; exact hilt)]

/-- Claim C8 witness: the theorem applied at a concrete one-to-one join. -/
theorem C8_witness :
    join (hashSeries c8Hash true ["a"] true c8High).1
      (hashSeries c8Hash true ["a"] true c8High).2
      (hashSeries c8Hash true ["a"] false c8Low).1
      (hashSeries c8Hash true ["a"] false c8Low).2 = .ok (c8Out, c8Hi, c8Lo)
    ∧ c8Hi.length = c8High.length :=
  ⟨rfl, (C8_join_index_invariants c8Hash true ["a"] c8High c8Low c8Out c8Hi c8Lo
    rfl).2.2.1⟩

/-! ## Claim C1 (amended theorem) -/

/-- Claim C1 (amended): provided the low-cardinality side has at most as many
input series as the high-cardinality side (so every write of `join` into
`lowCardOutputIndex` — a slice sized by the high-cardinality series count — is
in bounds), a one-to-one matching (no group modifier) in which two distinct
high-cardinality input series share the join signature of a matching
low-cardinality partner makes `initOutputs` return the many-to-many runtime
error, detected by `newTable` (modelled from the spec) from a
`lowCardOutputIndex` entry holding at least two output ids. -/
theorem C1_amended_manyToMany (h : Labels → Nat) (matching : VectorMatching)
    (lhsSeries rhsSeries : List Labels) (i j p : Nat)
    (hcard : matching.Card = Card.oneToOne)
    (hij : i ≠ j) (hilt : i < lhsSeries.length) (hjlt : j < lhsSeries.length)
    (hkey : (signature h (lhsSeries.getD j []) (!matching.On) matching.MatchingLabels true).1 =
            (signature h (lhsSeries.getD i []) (!matching.On) matching.MatchingLabels true).1)
    (hplt : p < rhsSeries.length)
    (hpk : (signature h (rhsSeries.getD p []) (!matching.On) matching.MatchingLabels false).1 =
           (signature h (lhsSeries.getD i []) (!matching.On) matching.MatchingLabels true).1)
    (hsize : rhsSeries.length ≤ lhsSeries.length) :
    initOutputs h matching lhsSeries rhsSeries = .error .manyToMany := by
  obtain ⟨card, mls, mOn⟩ := matching
  simp only at hcard hkey hpk
  subst hcard
  have hinit : initOutputs h ⟨Card.oneToOne, mls, mOn⟩ lhsSeries rhsSeries =
      (match join (hashSeries h mOn mls true lhsSeries).1
          (hashSeries h mOn mls true lhsSeries).2
          (hashSeries h mOn mls false rhsSeries).1
          (hashSeries h mOn mls false rhsSeries).2 with
       | .error e => .error e
       | .ok (output, hiIdx, loIdx) =>
         match writeSeries (List.replicate output.length []) output with
         | none => .error .seriesWriteOOB
         | some series =>
           match newTable Card.oneToOne loIdx with
           | .error e => .error e
           | .ok _ => .ok ⟨series, hiIdx, loIdx⟩) := rfl
  have hblen : ∀ b ∈ (hashSeries h mOn mls true lhsSeries).1.filter
      (fun kv => (alookup (hashSeries h mOn mls false rhsSeries).1 kv.1).isSome),
      ((alookup (hashSeries h mOn mls true lhsSeries).2 b.1).getD []).length =
        b.2.length := by
    intro b hb
    obtain ⟨k, outs⟩ := b
    obtain ⟨houts, hIn, -, -⟩ :=
      pruned_bucket_facts h mOn mls lhsSeries rhsSeries k outs hb
    rw [hIn, houts, List.length_map]
  have hbhi : ∀ b ∈ (hashSeries h mOn mls true lhsSeries).1.filter
      (fun kv => (alookup (hashSeries h mOn mls false rhsSeries).1 kv.1).isSome),
      ∀ i2 ∈ (alookup (hashSeries h mOn mls true lhsSeries).2 b.1).getD [],
      i2 < (List.replicate (totalLen (hashSeries h mOn mls true lhsSeries).1)
        (none : Option Nat)).length := by
    intro b hb i2 hi2
    obtain ⟨k, outs⟩ := b
    obtain ⟨-, hIn, -, -⟩ :=
      pruned_bucket_facts h mOn mls lhsSeries rhsSeries k outs hb
    rw [hIn] at hi2
    rw [List.length_replicate, totalLen_hashSeries2]
    exact ((inputBucket_mem _ _ _ _).mp hi2).1
  have hblo : ∀ b ∈ (hashSeries h mOn mls true lhsSeries).1.filter
      (fun kv => (alookup (hashSeries h mOn mls false rhsSeries).1 kv.1).isSome),
      ∃ lowID r2, (alookup (hashSeries h mOn mls false rhsSeries).2 b.1).getD [] =
        lowID :: r2 ∧
        lowID < (List.replicate (totalLen (hashSeries h mOn mls true lhsSeries).1)
          ([] : List Nat)).length := by
    intro b hb
    obtain ⟨k, outs⟩ := b
    obtain ⟨-, -, -, p2, lr, hplr, hplt2, -⟩ :=
      pruned_bucket_facts h mOn mls lhsSeries rhsSeries k outs hb
    refine ⟨p2, lr, hplr, ?_⟩
    rw [List.length_replicate, totalLen_hashSeries2]
    omega
  obtain ⟨outJ, hiJ, loJ, hjloop⟩ := joinLoop_ok
    (hashSeries h mOn mls false rhsSeries).2 (hashSeries h mOn mls true lhsSeries).2 _
    [] (List.replicate (totalLen (hashSeries h mOn mls true lhsSeries).1) none)
    (List.replicate (totalLen (hashSeries h mOn mls true lhsSeries).1) [])
    hblen hbhi hblo
  have hjoin : join (hashSeries h mOn mls true lhsSeries).1
      (hashSeries h mOn mls true lhsSeries).2
      (hashSeries h mOn mls false rhsSeries).1
      (hashSeries h mOn mls false rhsSeries).2 = .ok (outJ, hiJ, loJ) := by
    rw [join_eq]
    exact hjloop
  obtain ⟨-, -, hIDs, -, -, -, -, -, -⟩ := joinLoop_spec
    (hashSeries h mOn mls false rhsSeries).2 (hashSeries h mOn mls true lhsSeries).2 _
    [] outJ (List.replicate (totalLen (hashSeries h mOn mls true lhsSeries).1) none) hiJ
    (List.replicate (totalLen (hashSeries h mOn mls true lhsSeries).1) []) loJ
    hblen hjloop
  have hids := hIDs (fun j2 hj2 => absurd hj2 (by simp))
  have hws2 : writeSeries (List.replicate outJ.length []) outJ =
      some (outJ.map (fun s => s.Metric)) := by
    have hws := writeSeries_spec outJ 0 (List.replicate outJ.length []) (by simp)
      (fun j2 hj2 => by rw [Nat.zero_add]; exact hids j2 hj2)
    simpa using hws
  have hiin : i ∈ inputBucket (fun s => signature h s (!mOn) mls true) lhsSeries
      ((signature h (lhsSeries.getD i []) (!mOn) mls true).1) :=
    (inputBucket_mem _ _ _ _).mpr ⟨hilt, rfl⟩
  have hjin : j ∈ inputBucket (fun s => signature h s (!mOn) mls true) lhsSeries
      ((signature h (lhsSeries.getD i []) (!mOn) mls true).1) :=
    (inputBucket_mem _ _ _ _).mpr ⟨hjlt, hkey⟩
  have hIBne : inputBucket (fun s => signature h s (!mOn) mls true) lhsSeries
      ((signature h (lhsSeries.getD i []) (!mOn) mls true).1) ≠ [] := by
    intro hc
    rw [hc] at hiin
    exact absurd hiin (List.not_mem_nil i)
  have hpin : p ∈ inputBucket (fun s => signature h s (!mOn) mls false) rhsSeries
      ((signature h (lhsSeries.getD i []) (!mOn) mls true).1) :=
    (inputBucket_mem _ _ _ _).mpr ⟨hplt, hpk⟩
  have hLBne : inputBucket (fun s => signature h s (!mOn) mls false) rhsSeries
      ((signature h (lhsSeries.getD i []) (!mOn) mls true).1) ≠ [] := by
    intro hc
    rw [hc] at hpin
    exact absurd hpin (List.not_mem_nil p)
  have halk : alookup (hashSeries h mOn mls true lhsSeries).1
      ((signature h (lhsSeries.getD i []) (!mOn) mls true).1) =
      some ((inputBucket (fun s => signature h s (!mOn) mls true) lhsSeries
        ((signature h (lhsSeries.getD i []) (!mOn) mls true).1)).map
        (fun j3 => ⟨j3, (signature h (lhsSeries.getD j3 []) (!mOn) mls true).2⟩)) := by
    rw [hashSeries_hash_lookup2, if_neg hIBne]
  have hpred : (alookup (hashSeries h mOn mls false rhsSeries).1
      ((signature h (lhsSeries.getD i []) (!mOn) mls true).1)).isSome = true := by
    rw [hashSeries_hash_lookup2, if_neg hLBne]
    rfl
  have hmemP : (((signature h (lhsSeries.getD i []) (!mOn) mls true).1),
      (inputBucket (fun s => signature h s (!mOn) mls true) lhsSeries
        ((signature h (lhsSeries.getD i []) (!mOn) mls true).1)).map
        (fun j3 => ⟨j3, (signature h (lhsSeries.getD j3 []) (!mOn) mls true).2⟩)) ∈
      (hashSeries h mOn mls true lhsSeries).1.filter
        (fun kv => (alookup (hashSeries h mOn mls false rhsSeries).1 kv.1).isSome) :=
    List.mem_filter.mpr ⟨alookup_mem _ _ _ halk, hpred⟩
  obtain ⟨-, -, -, p0, lr0, hplr0, -, hpkey0⟩ :=
    pruned_bucket_facts h mOn mls lhsSeries rhsSeries _ _ hmemP
  have hnd : KeysNodup ((hashSeries h mOn mls true lhsSeries).1.filter
      (fun kv => (alookup (hashSeries h mOn mls false rhsSeries).1 kv.1).isSome)) :=
    keysNodup_filter _ _ (hashSeries_keysNodup2 h mOn mls true lhsSeries).1
  have hdist : ∀ b ∈ (hashSeries h mOn mls true lhsSeries).1.filter
      (fun kv => (alookup (hashSeries h mOn mls false rhsSeries).1 kv.1).isSome),
      ∀ lowID2 r2,
      (alookup (hashSeries h mOn mls false rhsSeries).2 b.1).getD [] = lowID2 :: r2 →
      b.1 ≠ (signature h (lhsSeries.getD i []) (!mOn) mls true).1 → lowID2 ≠ p0 := by
    intro b hb lowID2 r2 heq2 hbk hcon
    obtain ⟨k, outs⟩ := b
    obtain ⟨-, -, -, pb, lrb, hplrb, -, hpkeyb⟩ :=
      pruned_bucket_facts h mOn mls lhsSeries rhsSeries k outs hb
    rw [heq2] at hplrb
    injection hplrb with hpb hlrb
    have hp0key : (signature h (rhsSeries.getD p0 []) (!mOn) mls false).1 =
        (signature h (lhsSeries.getD i []) (!mOn) mls true).1 := by
      have hp0in : p0 ∈ inputBucket (fun s => signature h s (!mOn) mls false) rhsSeries
          ((signature h (lhsSeries.getD i []) (!mOn) mls true).1) := by
        have hLIn : (alookup (hashSeries h mOn mls false rhsSeries).2
            ((signature h (lhsSeries.getD i []) (!mOn) mls true).1)).getD [] =
            inputBucket (fun s => signature h s (!mOn) mls false) rhsSeries
              ((signature h (lhsSeries.getD i []) (!mOn) mls true).1) := by
          rw [hashSeries_input_lookup2, if_neg hLBne]
          rfl
        rw [hLIn] at hplr0
        rw [hplr0]
        exact List.mem_cons_self p0 lr0
      exact ((inputBucket_mem _ _ _ _).mp hp0in).2
    apply hbk
    rw [← hpkeyb, ← hpb, hcon, hp0key]
  obtain ⟨ids, hq, hlenids⟩ := joinLoop_partner
    (hashSeries h mOn mls false rhsSeries).2 (hashSeries h mOn mls true lhsSeries).2 _
    [] (List.replicate (totalLen (hashSeries h mOn mls true lhsSeries).1) none)
    (List.replicate (totalLen (hashSeries h mOn mls true lhsSeries).1) []) outJ hiJ loJ
    ((signature h (lhsSeries.getD i []) (!mOn) mls true).1)
    ((inputBucket (fun s => signature h s (!mOn) mls true) lhsSeries
      ((signature h (lhsSeries.getD i []) (!mOn) mls true).1)).map
      (fun j3 => ⟨j3, (signature h (lhsSeries.getD j3 []) (!mOn) mls true).2⟩))
    p0 lr0 hjloop hblen hnd hmemP hplr0 hdist
  have h2le : 2 ≤ ids.length := by
    rw [hlenids, List.length_map]
    exact two_le_length_of_mem _ i j hiin hjin hij
  have hNT : newTable Card.oneToOne loJ = .error .manyToMany := by
    unfold newTable
    rw [if_pos ⟨rfl, ids, List.get?_mem hq, h2le⟩]
  rw [hinit, hjoin]
  show (match writeSeries (List.replicate outJ.length []) outJ with
        | none => (Except.error EngineError.seriesWriteOOB : Except EngineError InitData)
        | some series =>
          match newTable Card.oneToOne loJ with
          | .error e => .error e
          | .ok _ => .ok ⟨series, hiJ, loJ⟩) = _
  rw [hws2]
  show (match newTable Card.oneToOne loJ with
        | .error e => (Except.error e : Except EngineError InitData)
        | .ok _ => .ok ⟨outJ.map (fun s : Series => s.Metric), hiJ, loJ⟩) = _
  rw [hNT]

/-- Claim C1 witness: the amended theorem applied at the concrete input. -/
theorem C1_witness :
    initOutputs c1Hash c1Matching c1Lhs c1RhsW = .error .manyToMany :=
  C1_amended_manyToMany c1Hash c1Matching c1Lhs c1RhsW 0 1 0 rfl (by decide)
    (by decide) (by decide) (by decide) (by decide) (by decide) (by decide)

/-! ## Claim C3 (amended theorem) -/

/-- With `keepLabels = true` (the high-cardinality side) and `ignoring`, only
`__name__` is dropped — the ignored names are retained. -/
theorem signature_label_without_keep (h : Labels → Nat) (metric : Labels)
    (grouping : List String) :
    (signature h metric true grouping true).2 =
      metric.filter (fun l => decide (l.name ≠ MetricName)) := by
  show builderDel metric [MetricName] = _
  unfold builderDel
  apply List.filter_congr
  intro a _
  simp

/-- With `keepLabels = true` and `on`, exactly the on-names survive (minus
`__name__`, deleted first). -/
theorem signature_label_on_keep (h : Labels → Nat) (metric : Labels)
    (grouping : List String) :
    (signature h metric false grouping true).2 =
      metric.filter (fun l => decide (l.name ∈ grouping ∧ l.name ≠ MetricName)) := by
  have hshow : (signature h metric false grouping true).2 =
      builderKeep (builderDel metric [MetricName]) grouping := by
    unfold signature
    by_cases hg : grouping = [] <;> simp [hg]
  rw [hshow]
  unfold builderKeep builderDel
  rw [List.filter_filter]
  apply List.filter_congr
  intro a _
  by_cases h1 : a.name ∈ grouping <;> by_cases h2 : a.name = MetricName <;>
    simp [h1, h2]

/-- Each entry of the `series` slice built by `initOutputs` is the
`keepLabels = true` signature label set of some high-cardinality input. -/
theorem initChain_series_labels (h : Labels → Nat) (mOn : Bool) (mls : List String)
    (highSide lowSide : List Labels) (output : List Series)
    (hiIdx : List (Option Nat)) (loIdx : List (List Nat)) (series : List Labels)
    (heqJ : join (hashSeries h mOn mls true highSide).1
        (hashSeries h mOn mls true highSide).2
        (hashSeries h mOn mls false lowSide).1
        (hashSeries h mOn mls false lowSide).2 = .ok (output, hiIdx, loIdx))
    (heqW : writeSeries (List.replicate output.length []) output = some series) :
    ∀ k2 (hk : k2 < series.length), ∃ i2, i2 < highSide.length ∧
      series.get ⟨k2, hk⟩ = (signature h (highSide.getD i2 []) (!mOn) mls true).2 := by
  rw [join_eq] at heqJ
  have hblen : ∀ b ∈ (hashSeries h mOn mls true highSide).1.filter
      (fun kv => (alookup (hashSeries h mOn mls false lowSide).1 kv.1).isSome),
      ((alookup (hashSeries h mOn mls true highSide).2 b.1).getD []).length =
        b.2.length := by
    intro b hb
    obtain ⟨k, outs⟩ := b
    obtain ⟨houts, hIn, -, -⟩ :=
      pruned_bucket_facts h mOn mls highSide lowSide k outs hb
    rw [hIn, houts, List.length_map]
  obtain ⟨-, ⟨t, ht, htm⟩, hIDs, -, -, -, -, -, -⟩ := joinLoop_spec
    (hashSeries h mOn mls false lowSide).2 (hashSeries h mOn mls true highSide).2 _
    [] output (List.replicate (totalLen (hashSeries h mOn mls true highSide).1) none)
    hiIdx (List.replicate (totalLen (hashSeries h mOn mls true highSide).1) []) loIdx
    hblen heqJ
  have hids := hIDs (fun j2 hj2 => absurd hj2 (by simp))
  have hws := writeSeries_spec output 0 (List.replicate output.length []) (by simp)
    (fun j2 hj2 => by rw [Nat.zero_add]; exact hids j2 hj2)
  have hseries : series = output.map (fun s : Series => s.Metric) := by
    have hcomb := heqW.symm.trans hws
    rw [List.take_zero, List.nil_append] at hcomb
    exact Option.some.inj hcomb
  subst hseries
  intro k2 hk
  have hk2 : k2 < output.length := by
    rw [List.length_map] at hk
    exact hk
  have hget : (output.map (fun s : Series => s.Metric)).get ⟨k2, hk⟩ =
      (output.get ⟨k2, hk2⟩).Metric := by
    simp
  rw [hget]
  have hmem : output.get ⟨k2, hk2⟩ ∈ output := List.get_mem output k2 hk2
  rw [List.nil_append] at ht
  have hmem2 : output.get ⟨k2, hk2⟩ ∈ t := by
    rw [← ht]
    exact hmem
  obtain ⟨b, hb, o, ho, hom⟩ := htm _ hmem2
  obtain ⟨k, outs⟩ := b
  obtain ⟨houts, -, -, -⟩ := pruned_bucket_facts h mOn mls highSide lowSide k outs hb
  rw [houts] at ho
  obtain ⟨i2, hi2in, hi2eq⟩ := List.mem_map.mp ho
  refine ⟨i2, ((inputBucket_mem _ _ _ _).mp hi2in).1, ?_⟩
  rw [hom, ← hi2eq]

/-- Claim C3 counterexample: with `ignoring("b")`, initialization succeeds and
the sole output series for high-cardinality input `{a="1", b="x"}` still
carries the ignored label `b` — contradicting the claim that for
`ignoring(L)` the names in `L` are removed from the output label set. -/
theorem C3_counterexample :
    c3Matching.On = false ∧ "b" ∈ c3Matching.MatchingLabels ∧
    ∃ d, initOutputs c3Hash c3Matching c3Lhs c3Rhs = Except.ok d ∧
      ∃ lbls ∈ d.series, ∃ l ∈ lbls, l.name = "b" := by
  refine ⟨rfl, by decide, ⟨[[⟨"a", "1"⟩, ⟨"b", "x"⟩]], [some 0], [[0]]⟩, rfl, ?_⟩
  exact ⟨[⟨"a", "1"⟩, ⟨"b", "x"⟩], by decide, ⟨"b", "x"⟩, by decide, rfl⟩

/-- Claim C3 (amended): every output series' label set is the corresponding
high-cardinality input's labels with, for `ignoring(L)`, only `__name__`
removed (the names in `L` are retained), and for `on(L)`, only the names in
`L` kept (minus `__name__`); no extra labels from the low-cardinality side are
ever added (`matching.Include` is not consulted by the code). -/
theorem C3_amended_output_labels (h : Labels → Nat) (matching : VectorMatching)
    (lhsSeries rhsSeries : List Labels) (d : InitData)
    (hok : initOutputs h matching lhsSeries rhsSeries = .ok d) :
    ∀ k2 (hk : k2 < d.series.length), ∃ i2,
      i2 < (highSideOf matching lhsSeries rhsSeries).length ∧
      d.series.get ⟨k2, hk⟩ =
        (if matching.On then
          ((highSideOf matching lhsSeries rhsSeries).getD i2 []).filter
            (fun l => decide (l.name ∈ matching.MatchingLabels ∧ l.name ≠ MetricName))
        else
          ((highSideOf matching lhsSeries rhsSeries).getD i2 []).filter
            (fun l => decide (l.name ≠ MetricName))) := by
  obtain ⟨card, mls, mOn⟩ := matching
  by_cases hc : card = Card.oneToMany
  · subst hc
    have hHS : highSideOf ⟨Card.oneToMany, mls, mOn⟩ lhsSeries rhsSeries = rhsSeries := by
      unfold highSideOf
      simp
    have hinit : initOutputs h ⟨Card.oneToMany, mls, mOn⟩ lhsSeries rhsSeries =
        (match join (hashSeries h mOn mls true rhsSeries).1
            (hashSeries h mOn mls true rhsSeries).2
            (hashSeries h mOn mls false lhsSeries).1
            (hashSeries h mOn mls false lhsSeries).2 with
         | .error e => .error e
         | .ok (output, hiIdx, loIdx) =>
           match writeSeries (List.replicate output.length []) output with
           | none => .error .seriesWriteOOB
           | some series =>
             match newTable Card.oneToMany loIdx with
             | .error e => .error e
             | .ok _ => .ok ⟨series, hiIdx, loIdx⟩) := rfl
    rw [hinit] at hok
    split at hok
    · exact absurd hok (by simp)
    next output hiIdx loIdx heqJ =>
      split at hok
      · exact absurd hok (by simp)
      next series heqW =>
        split at hok
        · exact absurd hok (by simp)
        next heqNT =>
          injection hok with hok
          subst hok
          have haux := initChain_series_labels h mOn mls rhsSeries lhsSeries
            output hiIdx loIdx series heqJ heqW
          intro k2 hk
          obtain ⟨i2, hi2, heq⟩ := haux k2 hk
          rw [hHS]
          refine ⟨i2, hi2, ?_⟩
          rw [heq]
          cases mOn
          · rw [if_neg (by simp)]
            exact signature_label_without_keep h _ mls
          · rw [if_pos rfl]
            exact signature_label_on_keep h _ mls
  · have hHS : highSideOf ⟨card, mls, mOn⟩ lhsSeries rhsSeries = lhsSeries := by
      unfold highSideOf
      rw [if_neg ?hcc]
      case hcc =>
        intro hcon
        exact hc hcon
    have hinit : initOutputs h ⟨card, mls, mOn⟩ lhsSeries rhsSeries =
        (match join (hashSeries h mOn mls true lhsSeries).1
            (hashSeries h mOn mls true lhsSeries).2
            (hashSeries h mOn mls false rhsSeries).1
            (hashSeries h mOn mls false rhsSeries).2 with
         | .error e => .error e
         | .ok (output, hiIdx, loIdx) =>
           match writeSeries (List.replicate output.length []) output with
           | none => .error .seriesWriteOOB
           | some series =>
             match newTable card loIdx with
             | .error e => .error e
             | .ok _ => .ok ⟨series, hiIdx, loIdx⟩) := by
      unfold initOutputs
      rw [if_neg (show ¬ (⟨card, mls, mOn⟩ : VectorMatching).Card = Card.oneToMany
        from hc)]
    rw [hinit] at hok
    split at hok
    · exact absurd hok (by simp)
    next output hiIdx loIdx heqJ =>
      split at hok
      · exact absurd hok (by simp)
      next series heqW =>
        split at hok
        · exact absurd hok (by simp)
        next heqNT =>
          injection hok with hok
          subst hok
          have haux := initChain_series_labels h mOn mls lhsSeries rhsSeries
            output hiIdx loIdx series heqJ heqW
          intro k2 hk
          obtain ⟨i2, hi2, heq⟩ := haux k2 hk
          rw [hHS]
          refine ⟨i2, hi2, ?_⟩
          rw [heq]
          cases mOn
          · rw [if_neg (by simp)]
            exact signature_label_without_keep h _ mls
          · rw [if_pos rfl]
            exact signature_label_on_keep h _ mls

/-- Claim C3 witness: the amended theorem applied at the concrete
`ignoring("b")` input of the counterexample — the ignored label `b` is kept. -/
theorem C3_witness :
    ∃ i2, i2 < (highSideOf c3Matching c3Lhs c3Rhs).length ∧
      ((⟨[[⟨"a", "1"⟩, ⟨"b", "x"⟩]], [some 0], [[0]]⟩ : InitData).series.get
        ⟨0, by decide⟩ =
        (if c3Matching.On then
          ((highSideOf c3Matching c3Lhs c3Rhs).getD i2 []).filter
            (fun l => decide (l.name ∈ c3Matching.MatchingLabels ∧ l.name ≠ MetricName))
        else
          ((highSideOf c3Matching c3Lhs c3Rhs).getD i2 []).filter
            (fun l => decide (l.name ≠ MetricName)))) :=
  C3_amended_output_labels c3Hash c3Matching c3Lhs c3Rhs
    ⟨[[⟨"a", "1"⟩, ⟨"b", "x"⟩]], [some 0], [[0]]⟩ rfl 0 (by decide)

end PromEngine
